import Mathlib

/-!
Verification of the LifeOS data-access core (tag normalizer, schema
manager, task/note/event repositories) against its natural-language
specification.  Python strings are modelled as lists of characters
(`Str`); Python's `str.strip` / `str.lower` / `str.split` /
`str.replace` are modelled character-wise (ASCII case folding, which is
what SQLite's NOCASE and the data in this system use).  SQLite tables
are modelled as lists of row records; `ORDER BY` is modelled as a stable
insertion sort by the corresponding comparator; timestamps and dates are
opaque strings compared lexicographically by code point, mirroring
SQLite TEXT comparison.
-/

/-! ## Definitions -/

/-- Python strings, modelled as lists of characters. -/
abbrev Str := List Char

/-- Conversion from Lean string literals to the `Str` model. -/
def S (s : String) : Str := s.data

/-- Characters stripped by Python's `str.strip()` (ASCII whitespace). -/
def pyWhitespace (c : Char) : Bool :=
  c = ' ' || c = '\t' || c = '\n' || c = '\r' || c = '\x0b' || c = '\x0c'

/-- Python `str.lstrip()`. -/
def lstrip (s : Str) : Str := s.dropWhile pyWhitespace

/-- Python `str.rstrip()`. -/
def rstrip (s : Str) : Str := (s.reverse.dropWhile pyWhitespace).reverse

/-- Python `str.strip()`. -/
def strip (s : Str) : Str := rstrip (lstrip s)

/-- Python `str.lower()` (ASCII case folding, character-wise). -/
def lowerStr (s : Str) : Str := s.map Char.toLower

/-- Python `value.replace(";", ",")` from `normalize_tags`. -/
def replaceSemicolons (s : Str) : Str := s.map (fun c => if c = ';' then ',' else c)

/-- Python `value.replace(" ", "_")` from `_normalize_status`. -/
def replaceSpaces (s : Str) : Str := s.map (fun c => if c = ' ' then '_' else c)

/-- Python `s.split(",")`: splits on every comma, keeping empty pieces
(`"".split(",") == [""]`). -/
def splitComma : Str → List Str
  | [] => [[]]
  | c :: rest =>
    match splitComma rest with
    | [] => [[]]
    | h :: t => if c = ',' then [] :: h :: t else (c :: h) :: t

/-- Python `",".join(items)`. -/
def joinComma : List Str → Str
  | [] => []
  | [x] => x
  | x :: xs => x ++ ',' :: joinComma xs

/-- The raw `tags` argument accepted by the Python tag utilities:
`Optional[str | Iterable[str]]`. -/
inductive TagValue where
  | null : TagValue
  | str (s : Str) : TagValue
  | list (l : List Str) : TagValue
deriving DecidableEq

/-- The cleaning loop of `normalize_tags`: trim + lowercase each item,
drop empties and duplicates (tracking already-seen tags in `seen`),
keeping first-occurrence order. -/
def cleanItems : List Str → List Str → List Str
  | [], _ => []
  | item :: rest, seen =>
    let tag := lowerStr (strip item)
    if tag = [] ∨ tag ∈ seen then cleanItems rest seen
    else tag :: cleanItems rest (tag :: seen)

/-- Model of `app.utils.tags.normalize_tags`. -/
def normalize_tags : TagValue → Str
  | .null => []
  | .str s => joinComma (cleanItems (splitComma (replaceSemicolons s)) [])
  | .list l => joinComma (cleanItems l [])

/-- Model of `app.utils.tags.tags_to_list`. -/
def tags_to_list (value : Option Str) : List Str :=
  match value with
  | none => []
  | some s =>
    if s = [] then []
    else ((splitComma s).map strip).filter (fun t => t ≠ [])

/-- The list of canonical items produced by `normalize_tags` before joining. -/
def normItems : TagValue → List Str
  | .null => []
  | .str s => cleanItems (splitComma (replaceSemicolons s)) []
  | .list l => cleanItems l []

/-- The raw item list `normalize_tags` cleans. -/
def rawTagItems : TagValue → List Str
  | .null => []
  | .str s => splitComma (replaceSemicolons s)
  | .list l => l

/-- Inputs for which the canonical-form guarantees hold: any string, any
absent value, and any sequence whose elements contain no comma or
semicolon (sequence elements with embedded separators defeat the
round-trip, see the counterexample). -/
def tagInputOK : TagValue → Prop
  | .list l => ∀ e ∈ l, ',' ∉ e ∧ ';' ∉ e
  | _ => True

/-- Lexicographic strict order by code point, as SQLite's default BINARY
collation compares TEXT values (all timestamps here are ASCII). -/
def strLt : Str → Str → Bool
  | [], [] => false
  | [], _ :: _ => true
  | _ :: _, [] => false
  | a :: as, b :: bs =>
    if a.toNat < b.toNat then true
    else if b.toNat < a.toNat then false
    else strLt as bs

/-- Non-strict lexicographic order. -/
def strLe (a b : Str) : Bool := !(strLt b a)

/-- A row of the `notes` table after schema initialization. -/
structure Note where
  id : Nat
  title : Str
  content : Str
  tags : Str
  pinned : Bool
  created_at : Str
  updated_at : Str
deriving DecidableEq

/-- A row of the `events` table after schema initialization. -/
structure Event where
  id : Nat
  title : Str
  start : Str
  end_ : Str
  location : Str
  description : Str
  all_day : Bool
  created_at : Str
  updated_at : Str
deriving DecidableEq

/-- A row of the `tasks` table after schema initialization. -/
structure TaskRow where
  id : Nat
  title : Str
  description : Str
  status : Str
  priority : Int
  due_at : Option Str
  tags : Str
  created_at : Str
  updated_at : Str
deriving DecidableEq

/-- Table state: rows plus the AUTOINCREMENT counter. -/
structure NotesDB where
  rows : List Note
  nextId : Nat
deriving DecidableEq

structure EventsDB where
  rows : List Event
  nextId : Nat
deriving DecidableEq

structure TasksDB where
  rows : List TaskRow
  nextId : Nat
deriving DecidableEq

/-- Model of `{"pending", "in_progress", "done", "canceled"}` from `app.services.tasks`. -/
def _VALID_STATUSES : List Str :=
  [S "pending", S "in_progress", S "done", S "canceled"]

/-- Model of `sorted(_VALID_STATUSES)` as f-string-rendered in the error message. -/
def sortedStatusesRendered : Str :=
  S "[\x27canceled\x27, \x27done\x27, \x27in_progress\x27, \x27pending\x27]"

/-- Model of `app.services.tasks._normalize_status`. -/
def _normalize_status (value : Str) : Option Str :=
  let status := replaceSpaces (lowerStr (strip value))
  if status ∈ _VALID_STATUSES then some status else none

/-- The error message produced for an unrecognized status. -/
def invalidStatusMsg (status : Str) : Str :=
  S "invalid status: " ++ status ++ S ". Use " ++ sortedStatusesRendered

/-- Model of `max(1, min(int(priority), 5))`. -/
def clampPriority (p : Int) : Int := max 1 (min p 5)

/-- Model of `max(1, min(int(limit), cap))` followed by use as a row count. -/
def clampLimit (limit : Int) (cap : Nat) : Nat := (max 1 (min limit (cap : Int))).toNat

/-- Contiguous-substring test. -/
def containsSub (needle : Str) : Str → Bool
  | [] => needle.isPrefixOf []
  | c :: rest => needle.isPrefixOf (c :: rest) || containsSub needle rest

/-- Case-insensitive containment, modelling `LIKE '%q%' COLLATE NOCASE`
(ASCII case folding; `%`/`_` wildcards inside the query are out of scope
of the spec and do not occur in the claims). -/
def likeContains (hay needle : Str) : Bool :=
  containsSub (lowerStr needle) (lowerStr hay)

/-- Model of `app.services.tasks.create_task` (the storage-visible behaviour: the
validation, the insert and the re-read of the fresh row; `now` stands for
SQLite's `CURRENT_TIMESTAMP`, identical for `created_at` and
`updated_at` inside the one insert). -/
def create_task (now title description : Str) (due_at : Option Str)
    (priority : Int) (tags : TagValue) (status : Str) (db : TasksDB) :
    Except Str TaskRow × TasksDB :=
  if strip title = [] then (.error (S "title cannot be empty"), db)
  else
    match _normalize_status status with
    | none => (.error (invalidStatusMsg status), db)
    | some normalized_status =>
      let row : TaskRow :=
        { id := db.nextId
          title := title
          description := description
          status := normalized_status
          priority := clampPriority priority
          due_at := match due_at with
            | none => none
            | some d => if strip d = [] then none else some d
          tags := normalize_tags tags
          created_at := now
          updated_at := now }
      (.ok row, { rows := db.rows ++ [row], nextId := db.nextId + 1 })

/-- The per-row effect of the dynamic `UPDATE tasks SET ...` statement
assembled by `update_task` (applied to the row matching the id; `none`
means the field was not supplied). -/
def applyTaskUpdate (now : Str) (title description due_at : Option Str)
    (priority : Option Int) (tags : Option TagValue) (status : Option Str)
    (r : TaskRow) : TaskRow :=
  { r with
    title := title.getD r.title
    description := description.getD r.description
    due_at := match due_at with
      | none => r.due_at
      | some d => if strip d = [] then none else some (strip d)
    priority := match priority with
      | none => r.priority
      | some p => clampPriority p
    tags := match tags with
      | none => r.tags
      | some tv => normalize_tags tv
    status := match status with
      | none => r.status
      | some s => (_normalize_status s).getD r.status
    updated_at := now }

/-- Whether a supplied title is empty after stripping (checked first in
the field-collection loop of each update tool). -/
def suppliedTitleEmpty (title : Option Str) : Bool :=
  match title with
  | none => false
  | some t => strip t = []

/-- Whether a supplied status fails `_normalize_status`. -/
def suppliedStatusBad (status : Option Str) : Bool :=
  match status with
  | none => false
  | some s => (_normalize_status s).isNone

/-- Model of `app.services.tasks.update_task`. -/
def update_task (now : Str) (task_id : Nat) (title description due_at : Option Str)
    (priority : Option Int) (tags : Option TagValue) (status : Option Str)
    (db : TasksDB) : Except Str TaskRow × TasksDB :=
  if suppliedTitleEmpty title then (.error (S "title cannot be empty"), db)
  else if suppliedStatusBad status then
    (.error (invalidStatusMsg (status.getD [])), db)
  else if title.isNone && description.isNone && due_at.isNone &&
      priority.isNone && tags.isNone && status.isNone then
    (.error (S "no fields to update"), db)
  else if db.rows.any (fun r => r.id = task_id) then
    let db' : TasksDB :=
      { db with rows := db.rows.map (fun r =>
          if r.id = task_id then
            applyTaskUpdate now title description due_at priority tags status r
          else r) }
    match db'.rows.find? (fun r => r.id = task_id) with
    | some r => (.ok r, db')
    | none => (.error (S "task not found"), db')
  else (.error (S "task not found"), db)

/-- Model of `app.services.tasks.delete_task`. -/
def delete_task (task_id : Nat) (db : TasksDB) : Except Str Nat × TasksDB :=
  if db.rows.any (fun r => r.id = task_id) then
    (.ok task_id, { db with rows := db.rows.filter (fun r => ¬ r.id = task_id) })
  else (.error (S "task not found"), db)

/-- Model of `app.services.notes.update_note`. -/
def update_note (now : Str) (note_id : Nat) (title content : Option Str)
    (tags : Option TagValue) (pinned : Option Bool) (db : NotesDB) :
    Except Str Note × NotesDB :=
  if suppliedTitleEmpty title then (.error (S "title cannot be empty"), db)
  else if title.isNone && content.isNone && tags.isNone && pinned.isNone then
    (.error (S "no fields to update"), db)
  else if db.rows.any (fun r => r.id = note_id) then
    let db' : NotesDB :=
      { db with rows := db.rows.map (fun r =>
          if r.id = note_id then
            { r with
              title := title.getD r.title
              content := content.getD r.content
              tags := match tags with
                | none => r.tags
                | some tv => normalize_tags tv
              pinned := pinned.getD r.pinned
              updated_at := now }
          else r) }
    match db'.rows.find? (fun r => r.id = note_id) with
    | some r => (.ok r, db')
    | none => (.error (S "note not found"), db')
  else (.error (S "note not found"), db)

/-- Model of `app.services.notes.delete_note`. -/
def delete_note (note_id : Nat) (db : NotesDB) : Except Str Nat × NotesDB :=
  if db.rows.any (fun r => r.id = note_id) then
    (.ok note_id, { db with rows := db.rows.filter (fun r => ¬ r.id = note_id) })
  else (.error (S "note not found"), db)

/-- Model of `app.services.calendar.update_event`. -/
def update_event (now : Str) (event_id : Nat)
    (title start end_ location description : Option Str)
    (all_day : Option Bool) (db : EventsDB) : Except Str Event × EventsDB :=
  if suppliedTitleEmpty title then (.error (S "title cannot be empty"), db)
  else if title.isNone && start.isNone && end_.isNone && location.isNone &&
      description.isNone && all_day.isNone then
    (.error (S "no fields to update"), db)
  else if db.rows.any (fun r => r.id = event_id) then
    let db' : EventsDB :=
      { db with rows := db.rows.map (fun r =>
          if r.id = event_id then
            { r with
              title := title.getD r.title
              start := start.getD r.start
              end_ := end_.getD r.end_
              location := location.getD r.location
              description := description.getD r.description
              all_day := all_day.getD r.all_day
              updated_at := now }
          else r) }
    match db'.rows.find? (fun r => r.id = event_id) with
    | some r => (.ok r, db')
    | none => (.error (S "event not found"), db')
  else (.error (S "event not found"), db)

/-- Model of `app.services.calendar.delete_event`. -/
def delete_event (event_id : Nat) (db : EventsDB) : Except Str Nat × EventsDB :=
  if db.rows.any (fun r => r.id = event_id) then
    (.ok event_id, { db with rows := db.rows.filter (fun r => ¬ r.id = event_id) })
  else (.error (S "event not found"), db)

/-- WHERE clause of `search_notes`: title LIKE, plus content LIKE when
`in_content` is set. -/
def noteMatches (q : Str) (in_content : Bool) (n : Note) : Bool :=
  likeContains n.title q || (in_content && likeContains n.content q)

/-- WHERE clause of `search_tasks`. -/
def taskMatches (q : Str) (t : TaskRow) : Bool :=
  likeContains t.title q || likeContains t.description q

/-- WHERE clause of `search_events`. -/
def eventMatches (q : Str) (e : Event) : Bool :=
  likeContains e.title q || likeContains e.location q || likeContains e.description q

/-- Model of `ORDER BY updated_at DESC` on notes. -/
def updatedDescN (a b : Note) : Prop := strLe b.updated_at a.updated_at = true

/-- Model of `ORDER BY updated_at DESC` on tasks. -/
def updatedDescT (a b : TaskRow) : Prop := strLe b.updated_at a.updated_at = true

/-- Model of `ORDER BY "start"` (ascending) on events. -/
def startAscE (a b : Event) : Prop := strLe a.start b.start = true

instance : DecidableRel updatedDescN := fun _ _ =>
  inferInstanceAs (Decidable (_ = true))

instance : DecidableRel updatedDescT := fun _ _ =>
  inferInstanceAs (Decidable (_ = true))

instance : DecidableRel startAscE := fun _ _ =>
  inferInstanceAs (Decidable (_ = true))

/-- Model of `app.services.notes.search_notes` (WHERE, then ORDER BY updated_at
DESC, then LIMIT max(1, min(limit, 100))). -/
def search_notes (q : Str) (limit : Int) (in_content : Bool) (db : NotesDB) :
    Except Str (List Note) :=
  if strip q = [] then .error (S "query cannot be empty")
  else .ok ((List.insertionSort updatedDescN
    (db.rows.filter (noteMatches q in_content))).take (clampLimit limit 100))

/-- Model of `app.services.tasks.search_tasks` (ORDER BY updated_at DESC, limit
cap 200). -/
def search_tasks (q : Str) (limit : Int) (db : TasksDB) :
    Except Str (List TaskRow) :=
  if strip q = [] then .error (S "query cannot be empty")
  else .ok ((List.insertionSort updatedDescT
    (db.rows.filter (taskMatches q))).take (clampLimit limit 200))

/-- Model of `app.services.calendar.search_events` (ORDER BY "start", limit cap
200). -/
def search_events (q : Str) (limit : Int) (db : EventsDB) :
    Except Str (List Event) :=
  if strip q = [] then .error (S "query cannot be empty")
  else .ok ((List.insertionSort startAscE
    (db.rows.filter (eventMatches q))).take (clampLimit limit 200))

/-- Model of `ORDER BY pinned DESC, updated_at DESC, created_at DESC` — the
default list ordering of notes (`list_notes`). -/
def noteListOrder (a b : Note) : Prop :=
  if a.pinned = b.pinned then
    if a.updated_at = b.updated_at then strLe b.created_at a.created_at = true
    else strLe b.updated_at a.updated_at = true
  else a.pinned = true ∧ b.pinned = false

instance : DecidableRel noteListOrder := fun a b => by
  unfold noteListOrder
  infer_instance

/-- The WHERE clause of `list_notes` (`pinned_only`, and the
`',' || tags || ',' LIKE '%,tag,%'` filter; SQLite LIKE is
ASCII-case-insensitive by default). -/
def noteListFilter (tag : Option Str) (pinned_only : Bool) (r : Note) : Bool :=
  (!pinned_only || r.pinned) &&
  (match tag with
   | none => true
   | some t =>
     if t = [] then true
     else likeContains (',' :: r.tags ++ [','])
       (',' :: lowerStr (strip t) ++ [',']))

/-- Model of `app.services.notes.list_notes` (filters, default ordering, limit
clamped to [1, 200], offset clamped at 0). -/
def list_notes (limit offset : Int) (tag : Option Str) (pinned_only : Bool)
    (db : NotesDB) : List Note :=
  ((List.insertionSort noteListOrder
    (db.rows.filter (noteListFilter tag pinned_only))).drop (max 0 offset).toNat).take
    (clampLimit limit 200)

/-- A `notes` row as seen by the migration layer. -/
structure NoteMRow where
  title : Str
  content : Option Str
  tags : Option Str
  pinned : Option Int
  created_at : Str
  updated_at : Option Str
deriving DecidableEq

/-- An `events` row as seen by the migration layer. -/
structure EventMRow where
  title : Str
  start : Str
  end_ : Str
  location : Option Str
  description : Option Str
  all_day : Option Int
  created_at : Str
  updated_at : Option Str
deriving DecidableEq

/-- A `tasks` row as seen by the migration layer. -/
structure TaskMRow where
  title : Str
  description : Option Str
  status : Option Str
  priority : Option Int
  due_at : Option Str
  tags : Option Str
  created_at : Str
  updated_at : Option Str
deriving DecidableEq

/-- A table: its column names and its rows. -/
structure MTable (ρ : Type) where
  cols : List Str
  rows : List ρ
deriving DecidableEq

/-- The whole store: three optional tables plus the database-level index
name list. -/
structure MDB where
  notes : Option (MTable NoteMRow)
  events : Option (MTable EventMRow)
  tasks : Option (MTable TaskMRow)
  indexes : List Str
deriving DecidableEq

/-- Columns of a freshly created `notes` table (`_SCHEMA_SQL`). -/
def notesFreshCols : List Str :=
  [S "id", S "title", S "content", S "tags", S "pinned",
   S "created_at", S "updated_at"]

/-- Columns of a freshly created `events` table. -/
def eventsFreshCols : List Str :=
  [S "id", S "title", S "start", S "end", S "location", S "description",
   S "all_day", S "created_at", S "updated_at"]

/-- Columns of a freshly created `tasks` table. -/
def tasksFreshCols : List Str :=
  [S "id", S "title", S "description", S "status", S "priority",
   S "due_at", S "tags", S "created_at", S "updated_at"]

/-- The eleven `CREATE INDEX IF NOT EXISTS` names (identical in
`_SCHEMA_SQL` and in `_run_migrations`). -/
def allIndexNames : List Str :=
  [S "idx_notes_title", S "idx_notes_created_at", S "idx_notes_updated_at",
   S "idx_notes_pinned", S "idx_events_start", S "idx_events_created_at",
   S "idx_events_updated_at", S "idx_tasks_status", S "idx_tasks_due_at",
   S "idx_tasks_priority", S "idx_tasks_updated_at"]

/-- Model of `CREATE INDEX IF NOT EXISTS name ...`. -/
def addIndex (idxs : List Str) (name : Str) : List Str :=
  if name ∈ idxs then idxs else idxs ++ [name]

/-- Run all eleven index creations. -/
def createIndexes (idxs : List Str) : List Str :=
  allIndexNames.foldl addIndex idxs

/-- Model of `ALTER TABLE ... ADD COLUMN` guarded by the PRAGMA table_info check
of `_ensure_columns`: add the column if missing and apply the column's
default to every pre-existing row (`setDefault`). -/
def ensureCol {ρ : Type} (t : MTable ρ) (name : Str) (setDefault : ρ → ρ) :
    MTable ρ :=
  if name ∈ t.cols then t
  else { cols := t.cols ++ [name], rows := t.rows.map setDefault }

/-- Model of `_ensure_columns(conn, "notes", {tags, pinned, updated_at})`. -/
def ensureNotesColumns (t : MTable NoteMRow) : MTable NoteMRow :=
  let t1 := ensureCol t (S "tags") (fun r => { r with tags := some [] })
  let t2 := ensureCol t1 (S "pinned") (fun r => { r with pinned := some 0 })
  ensureCol t2 (S "updated_at") (fun r => { r with updated_at := none })

/-- Model of `_ensure_columns(conn, "events", {location, description, all_day,
updated_at})`. -/
def ensureEventsColumns (t : MTable EventMRow) : MTable EventMRow :=
  let t1 := ensureCol t (S "location") (fun r => { r with location := some [] })
  let t2 := ensureCol t1 (S "description")
    (fun r => { r with description := some [] })
  let t3 := ensureCol t2 (S "all_day") (fun r => { r with all_day := some 0 })
  ensureCol t3 (S "updated_at") (fun r => { r with updated_at := none })

/-- Model of `_ensure_columns(conn, "tasks", {description, status, priority,
due_at, tags, updated_at})`. -/
def ensureTasksColumns (t : MTable TaskMRow) : MTable TaskMRow :=
  let t1 := ensureCol t (S "description")
    (fun r => { r with description := some [] })
  let t2 := ensureCol t1 (S "status")
    (fun r => { r with status := some (S "pending") })
  let t3 := ensureCol t2 (S "priority") (fun r => { r with priority := some 3 })
  let t4 := ensureCol t3 (S "due_at") (fun r => { r with due_at := none })
  let t5 := ensureCol t4 (S "tags") (fun r => { r with tags := some [] })
  ensureCol t5 (S "updated_at") (fun r => { r with updated_at := none })

/-- The notes backfill UPDATEs of `_run_migrations`. -/
def backfillNoteRow (r : NoteMRow) : NoteMRow :=
  { r with
    updated_at := some (r.updated_at.getD r.created_at)
    tags := some (r.tags.getD [])
    pinned := some (r.pinned.getD 0) }

/-- The events backfill UPDATEs of `_run_migrations`. -/
def backfillEventRow (r : EventMRow) : EventMRow :=
  { r with
    updated_at := some (r.updated_at.getD r.created_at)
    location := some (r.location.getD [])
    description := some (r.description.getD [])
    all_day := some (r.all_day.getD 0) }

/-- The tasks backfill UPDATEs of `_run_migrations` (note: tasks
`description` is never backfilled). -/
def backfillTaskRow (r : TaskMRow) : TaskMRow :=
  { r with
    updated_at := some (r.updated_at.getD r.created_at)
    tags := some (r.tags.getD [])
    status := some (r.status.getD (S "pending"))
    priority := some (r.priority.getD 3) }

/-- Column migration plus backfill for one table. -/
def migrateNotes (t : MTable NoteMRow) : MTable NoteMRow :=
  let t1 := ensureNotesColumns t
  { t1 with rows := t1.rows.map backfillNoteRow }

def migrateEvents (t : MTable EventMRow) : MTable EventMRow :=
  let t1 := ensureEventsColumns t
  { t1 with rows := t1.rows.map backfillEventRow }

def migrateTasks (t : MTable TaskMRow) : MTable TaskMRow :=
  let t1 := ensureTasksColumns t
  { t1 with rows := t1.rows.map backfillTaskRow }

/-- Model of `conn.executescript(_SCHEMA_SQL)`: CREATE TABLE IF NOT EXISTS for
the three tables (a fresh table has the full column set and no rows) and
CREATE INDEX IF NOT EXISTS for the eleven indexes. -/
def execSchemaScript (db : MDB) : MDB :=
  { notes := some (db.notes.getD ⟨notesFreshCols, []⟩)
    events := some (db.events.getD ⟨eventsFreshCols, []⟩)
    tasks := some (db.tasks.getD ⟨tasksFreshCols, []⟩)
    indexes := createIndexes db.indexes }

/-- Model of `_run_migrations`: per-table column migration, the index script, and
the backfill UPDATEs (the `_table_exists` guards are the `Option.map`). -/
def _run_migrations (db : MDB) : MDB :=
  { notes := db.notes.map migrateNotes
    events := db.events.map migrateEvents
    tasks := db.tasks.map migrateTasks
    indexes := createIndexes db.indexes }

/-- Model of `_init_schema`: schema script then migrations (one Schema Manager
run). -/
def _init_schema (db : MDB) : MDB := _run_migrations (execSchemaScript db)

/-- Storage well-formedness: a NULL-able column that is absent from a
table's column list holds no values, and column/index name lists have no
duplicates (true of any real SQLite file). -/
def notesWF (t : MTable NoteMRow) : Prop :=
  t.cols.Nodup ∧
  (S "tags" ∉ t.cols → ∀ r ∈ t.rows, r.tags = none) ∧
  (S "pinned" ∉ t.cols → ∀ r ∈ t.rows, r.pinned = none) ∧
  (S "updated_at" ∉ t.cols → ∀ r ∈ t.rows, r.updated_at = none)

def eventsWF (t : MTable EventMRow) : Prop :=
  t.cols.Nodup ∧
  (S "location" ∉ t.cols → ∀ r ∈ t.rows, r.location = none) ∧
  (S "description" ∉ t.cols → ∀ r ∈ t.rows, r.description = none) ∧
  (S "all_day" ∉ t.cols → ∀ r ∈ t.rows, r.all_day = none) ∧
  (S "updated_at" ∉ t.cols → ∀ r ∈ t.rows, r.updated_at = none)

def tasksWF (t : MTable TaskMRow) : Prop :=
  t.cols.Nodup ∧
  (S "description" ∉ t.cols → ∀ r ∈ t.rows, r.description = none) ∧
  (S "status" ∉ t.cols → ∀ r ∈ t.rows, r.status = none) ∧
  (S "priority" ∉ t.cols → ∀ r ∈ t.rows, r.priority = none) ∧
  (S "due_at" ∉ t.cols → ∀ r ∈ t.rows, r.due_at = none) ∧
  (S "tags" ∉ t.cols → ∀ r ∈ t.rows, r.tags = none) ∧
  (S "updated_at" ∉ t.cols → ∀ r ∈ t.rows, r.updated_at = none)

def MDBWF (db : MDB) : Prop :=
  db.indexes.Nodup ∧
  (∀ t, db.notes = some t → notesWF t) ∧
  (∀ t, db.events = some t → eventsWF t) ∧
  (∀ t, db.tasks = some t → tasksWF t)

/-- End-to-end relation between a pre-existing notes row and its state
after one Schema Manager run. -/
def noteMigrated (r r' : NoteMRow) : Prop :=
  r'.title = r.title ∧ r'.content = r.content ∧ r'.created_at = r.created_at ∧
  r'.updated_at = some (r.updated_at.getD r.created_at) ∧
  r'.tags = some (r.tags.getD []) ∧
  r'.pinned = some (r.pinned.getD 0)

/-- End-to-end relation for events rows. -/
def eventMigrated (r r' : EventMRow) : Prop :=
  r'.title = r.title ∧ r'.start = r.start ∧ r'.end_ = r.end_ ∧
  r'.created_at = r.created_at ∧
  r'.updated_at = some (r.updated_at.getD r.created_at) ∧
  r'.location = some (r.location.getD []) ∧
  r'.description = some (r.description.getD []) ∧
  r'.all_day = some (r.all_day.getD 0)

/-- End-to-end relation for tasks rows (description is never backfilled,
so only its non-null preservation is guaranteed). -/
def taskMigrated (r r' : TaskMRow) : Prop :=
  r'.title = r.title ∧ r'.created_at = r.created_at ∧ r'.due_at = r.due_at ∧
  r'.updated_at = some (r.updated_at.getD r.created_at) ∧
  r'.tags = some (r.tags.getD []) ∧
  r'.status = some (r.status.getD (S "pending")) ∧
  r'.priority = some (r.priority.getD 3) ∧
  (∀ v, r.description = some v → r'.description = some v)

/-- Invariant carried through the column-add chain for notes. -/
def colStepN (r b : NoteMRow) : Prop :=
  b.title = r.title ∧ b.content = r.content ∧ b.created_at = r.created_at ∧
  b.updated_at = r.updated_at ∧
  b.tags.getD [] = r.tags.getD [] ∧
  b.pinned.getD 0 = r.pinned.getD 0

def colStepE (r b : EventMRow) : Prop :=
  b.title = r.title ∧ b.start = r.start ∧ b.end_ = r.end_ ∧
  b.created_at = r.created_at ∧ b.updated_at = r.updated_at ∧
  b.location.getD [] = r.location.getD [] ∧
  b.description.getD [] = r.description.getD [] ∧
  b.all_day.getD 0 = r.all_day.getD 0

def colStepT (r b : TaskMRow) : Prop :=
  b.title = r.title ∧ b.created_at = r.created_at ∧ b.due_at = r.due_at ∧
  b.updated_at = r.updated_at ∧
  b.tags.getD [] = r.tags.getD [] ∧
  b.status.getD (S "pending") = r.status.getD (S "pending") ∧
  b.priority.getD 3 = r.priority.getD 3 ∧
  (∀ v, r.description = some v → b.description = some v)

/-- A legacy `tasks` table missing the `description` and `updated_at`
columns, with one row. -/
def legacyTasksTable : MTable TaskMRow :=
  ⟨[S "id", S "title", S "status", S "priority", S "due_at",
      S "tags", S "created_at"],
    [⟨S "pay rent", none, none, some 2, none, none, S "2024-01-01", none⟩]⟩

/-- A concrete pre-migration store holding only the legacy tasks
table. -/
def mdbWitness : MDB :=
  { notes := none
    events := none
    tasks := some legacyTasksTable
    indexes := [] }

/-- Absolute-path resolution (`Path.expanduser` / `Path.cwd() / path`
/ `.resolve()` folded into one abstraction: absolute inputs are kept,
relative ones are anchored at the working directory). -/
def resolveAbs (cwd value : Str) : Str :=
  if value.head? = some '/' then value else cwd ++ '/' :: value

/-- Model of `(raw_path or "").strip()` with the empty-value default
`"data/lifeos.db"`. -/
def configuredValue (raw : Option Str) : Str :=
  let value := strip (raw.getD [])
  if value = [] then S "data/lifeos.db" else value

/-- Model of `app.db.sqlite._resolve_db_path`.  The outcomes of the two `mkdir`
attempts are oracle booleans; the code catches every exception they can
raise, so they are the only effects it observes. -/
def _resolve_db_path (raw : Option Str) (cwd home : Str)
    (mkdirOk homeMkdirOk : Bool) : Str :=
  let value := configuredValue raw
  if value = S ":memory:" then value
  else
    let path := resolveAbs cwd value
    if mkdirOk then path
    else if homeMkdirOk then home ++ S "/.lifeos/lifeos.db"
    else S ":memory:"

/-- A one-row tasks store. -/
def c10db : TasksDB :=
  ⟨[⟨1, S "t", [], S "pending", 3, none, [], S "2025", S "2025"⟩], 2⟩

/-- Two notes: a pinned one updated earlier and an unpinned one updated
later; both match the query "x". -/
def noteA : Note := ⟨1, S "x a", [], [], true, S "2025-01-01", S "2025-01-01"⟩

def noteB : Note := ⟨2, S "x b", [], [], false, S "2025-01-02", S "2025-01-02"⟩

def c7db : NotesDB := ⟨[noteA, noteB], 3⟩

/-- Decidable equality for concrete search results. -/
instance : DecidableEq (Except Str (List Note)) := fun a b =>
  match a, b with
  | .ok x, .ok y => if h : x = y then .isTrue (by rw [h]) else
      .isFalse (fun he => h (by cases he; rfl))
  | .error x, .error y => if h : x = y then .isTrue (by rw [h]) else
      .isFalse (fun he => h (by cases he; rfl))
  | .ok _, .error _ => .isFalse (fun he => nomatch he)
  | .error _, .ok _ => .isFalse (fun he => nomatch he)

/-! ## Theorems -/

theorem toLower_cases (c : Char) :
    (¬(65 ≤ c.toNat ∧ c.toNat ≤ 90) ∧ Char.toLower c = c) ∨
    ((65 ≤ c.toNat ∧ c.toNat ≤ 90) ∧ (Char.toLower c).toNat = c.toNat + 32) := by
  by_cases h : 65 ≤ c.toNat ∧ c.toNat ≤ 90
  · right
    refine ⟨h, ?_⟩
    have hv : (c.toNat + 32).isValidChar := Or.inl (by omega)
    simp only [Char.toLower, ge_iff_le, h, and_self, if_true]
    rw [Char.ofNat, dif_pos hv]
    simp [Char.ofNatAux, Char.toNat, UInt32.toNat, BitVec.toNat_ofNatLt]
  · left
    refine ⟨h, ?_⟩
    simp only [Char.toLower, ge_iff_le]
    rw [if_neg h]

theorem toLower_of_not_upper {c : Char} (h : ¬(65 ≤ c.toNat ∧ c.toNat ≤ 90)) :
    Char.toLower c = c := by
  simp only [Char.toLower, ge_iff_le]
  rw [if_neg h]

theorem toLower_not_upper (c : Char) :
    ¬(65 ≤ (Char.toLower c).toNat ∧ (Char.toLower c).toNat ≤ 90) := by
  rcases toLower_cases c with ⟨h, he⟩ | ⟨h, he⟩
  · rw [he]; exact h
  · omega

theorem toLower_idem (c : Char) : Char.toLower (Char.toLower c) = Char.toLower c :=
  toLower_of_not_upper (toLower_not_upper c)

theorem toLower_eq_iff_lt65 {c p : Char} (hp : p.toNat < 65) :
    Char.toLower c = p ↔ c = p := by
  constructor
  · intro h
    rcases toLower_cases c with ⟨_, he⟩ | ⟨_, he⟩
    · rwa [he] at h
    · rw [h] at he; omega
  · intro h
    subst h
    exact toLower_of_not_upper (by omega)

theorem pyWhitespace_toLower (c : Char) :
    pyWhitespace (Char.toLower c) = pyWhitespace c := by
  simp only [pyWhitespace]
  rw [decide_eq_decide.mpr (toLower_eq_iff_lt65 (by decide)),
      decide_eq_decide.mpr (toLower_eq_iff_lt65 (by decide)),
      decide_eq_decide.mpr (toLower_eq_iff_lt65 (by decide)),
      decide_eq_decide.mpr (toLower_eq_iff_lt65 (by decide)),
      decide_eq_decide.mpr (toLower_eq_iff_lt65 (by decide)),
      decide_eq_decide.mpr (toLower_eq_iff_lt65 (by decide))]

theorem lowerStr_idem (s : Str) : lowerStr (lowerStr s) = lowerStr s := by
  simp only [lowerStr, List.map_map]
  exact List.map_congr_left fun c _ => toLower_idem c

theorem lstrip_idem (s : Str) : lstrip (lstrip s) = lstrip s :=
  List.dropWhile_idempotent pyWhitespace s

theorem rstrip_idem (s : Str) : rstrip (rstrip s) = rstrip s := by
  simp only [rstrip, List.reverse_reverse]
  rw [List.dropWhile_idempotent]

theorem head_not_ws_of_lstrip_fix {c : Char} {rest : Str}
    (h : lstrip (c :: rest) = c :: rest) : pyWhitespace c = false := by
  by_contra hc
  have hc' : pyWhitespace c = true := by
    cases hps : pyWhitespace c
    · exact absurd hps hc
    · rfl
  have h2 : lstrip (c :: rest) = lstrip rest := by
    simp [lstrip, List.dropWhile, hc']
  rw [h] at h2
  have := congrArg List.length h2
  have hle := (List.dropWhile_sublist (l := rest) pyWhitespace).length_le
  simp only [List.length_cons, lstrip] at this hle
  omega

theorem dropWhile_suffix_decomp (p : Char → Bool) (l : Str) :
    ∃ t, l = t ++ l.dropWhile p := by
  induction l with
  | nil => exact ⟨[], rfl⟩
  | cons c rest ih =>
    by_cases hc : p c = true
    · obtain ⟨t, ht⟩ := ih
      refine ⟨c :: t, ?_⟩
      simp [List.dropWhile, hc]
      exact ht
    · refine ⟨[], ?_⟩
      have hc' : p c = false := by
        cases hps : p c
        · rfl
        · exact absurd hps hc
      simp [List.dropWhile, hc']

theorem rstrip_append_decomp (s : Str) : ∃ t, s = rstrip s ++ t := by
  obtain ⟨t, ht⟩ := dropWhile_suffix_decomp pyWhitespace s.reverse
  refine ⟨t.reverse, ?_⟩
  have := congrArg List.reverse ht
  simpa [rstrip] using this

theorem lstrip_fix_append {u v t : Str} (hu : lstrip u = u) (hdecomp : u = v ++ t) :
    lstrip v = v := by
  cases v with
  | nil => rfl
  | cons c v' =>
    have hc : pyWhitespace c = false := by
      rw [hdecomp] at hu
      exact head_not_ws_of_lstrip_fix hu
    simp [lstrip, List.dropWhile, hc]

theorem strip_idem (s : Str) : strip (strip s) = strip s := by
  simp only [strip]
  have h1 : lstrip (lstrip s) = lstrip s := lstrip_idem s
  obtain ⟨t, ht⟩ := rstrip_append_decomp (lstrip s)
  have h2 : lstrip (rstrip (lstrip s)) = rstrip (lstrip s) :=
    lstrip_fix_append h1 ht
  rw [h2, rstrip_idem]

theorem lstrip_lower_comm (s : Str) : lstrip (lowerStr s) = lowerStr (lstrip s) := by
  simp only [lstrip, lowerStr]
  rw [List.dropWhile_map]
  congr 1
  have : (pyWhitespace ∘ Char.toLower) = pyWhitespace := by
    funext c
    exact pyWhitespace_toLower c
  rw [this]

theorem rstrip_lower_comm (s : Str) : rstrip (lowerStr s) = lowerStr (rstrip s) := by
  simp only [rstrip, lowerStr]
  rw [← List.map_reverse, List.dropWhile_map, ← List.map_reverse]
  congr 2
  have : (pyWhitespace ∘ Char.toLower) = pyWhitespace := by
    funext c
    exact pyWhitespace_toLower c
  rw [this]

theorem strip_lower_comm (s : Str) : strip (lowerStr s) = lowerStr (strip s) := by
  simp only [strip]
  rw [lstrip_lower_comm, rstrip_lower_comm]

/-- The cleaned form of a tag item is a fixed point of clean-up. -/
theorem clean_fix (i : Str) :
    strip (lowerStr (strip i)) = lowerStr (strip i) ∧
    lowerStr (lowerStr (strip i)) = lowerStr (strip i) := by
  constructor
  · rw [strip_lower_comm, strip_idem]
  · exact lowerStr_idem _

theorem splitComma_ne_nil (s : Str) : splitComma s ≠ [] := by
  cases s with
  | nil => simp [splitComma]
  | cons c rest =>
    simp only [splitComma]
    cases hs : splitComma rest with
    | nil => simp
    | cons h t =>
      by_cases hc : c = ','
      · simp [hc]
      · simp [hc]

theorem mem_splitComma_no_comma {s : Str} : ∀ x ∈ splitComma s, ',' ∉ x := by
  induction s with
  | nil =>
    intro x hx
    simp [splitComma] at hx
    simp [hx]
  | cons c rest ih =>
    intro x hx
    simp only [splitComma] at hx
    cases hs : splitComma rest with
    | nil => exact absurd hs (splitComma_ne_nil rest)
    | cons h t =>
      rw [hs] at hx
      by_cases hc : c = ','
      · simp only [hc, if_true, List.mem_cons] at hx
        rcases hx with hx | hx | hx
        · simp [hx]
        · subst hx; exact ih x (by rw [hs]; exact List.mem_cons_self x t)
        · exact ih x (by rw [hs]; exact List.mem_cons_of_mem h hx)
      · simp only [hc, if_false, List.mem_cons] at hx
        rcases hx with hx | hx
        · subst hx
          intro hmem
          rcases List.mem_cons.mp hmem with hmem | hmem
          · exact hc hmem.symm
          · exact ih h (by rw [hs]; exact List.mem_cons_self h t) hmem
        · exact ih x (by rw [hs]; exact List.mem_cons_of_mem h hx)

theorem mem_of_mem_splitComma {s x : Str} (hx : x ∈ splitComma s) :
    ∀ c ∈ x, c ∈ s := by
  induction s generalizing x with
  | nil =>
    simp [splitComma] at hx
    simp [hx]
  | cons a rest ih =>
    simp only [splitComma] at hx
    cases hs : splitComma rest with
    | nil => exact absurd hs (splitComma_ne_nil rest)
    | cons h t =>
      rw [hs] at hx
      intro c hc
      by_cases ha : a = ','
      · simp only [ha, if_true, List.mem_cons] at hx
        rcases hx with hx | hx
        · subst hx; simp at hc
        · exact List.mem_cons_of_mem a
            (ih (by rw [hs]; exact List.mem_cons.mpr hx) c hc)
      · simp only [ha, if_false, List.mem_cons] at hx
        rcases hx with hx | hx
        · subst hx
          rcases List.mem_cons.mp hc with hc | hc
          · exact hc ▸ List.mem_cons_self a rest
          · exact List.mem_cons_of_mem a
              (ih (by rw [hs]; exact List.mem_cons_self h t) c hc)
        · exact List.mem_cons_of_mem a
            (ih (by rw [hs]; exact List.mem_cons_of_mem h hx) c hc)

theorem splitComma_of_no_comma {x : Str} (hx : ',' ∉ x) : splitComma x = [x] := by
  induction x with
  | nil => rfl
  | cons c rest ih =>
    have hc : c ≠ ',' := fun h => hx (h ▸ List.mem_cons_self c rest)
    have hrest : ',' ∉ rest := fun h => hx (List.mem_cons_of_mem c h)
    simp only [splitComma, ih hrest]
    simp [hc]

theorem splitComma_append_comma {x : Str} (s : Str) (hx : ',' ∉ x) :
    splitComma (x ++ ',' :: s) = x :: splitComma s := by
  induction x with
  | nil =>
    simp only [List.nil_append, splitComma]
    cases hs : splitComma s with
    | nil => exact absurd hs (splitComma_ne_nil s)
    | cons h t => simp
  | cons c rest ih =>
    have hc : c ≠ ',' := fun h => hx (h ▸ List.mem_cons_self c rest)
    have hrest : ',' ∉ rest := fun h => hx (List.mem_cons_of_mem c h)
    have h2 : splitComma (rest ++ ',' :: s) = rest :: splitComma s := ih hrest
    show splitComma (c :: (rest ++ ',' :: s)) = (c :: rest) :: splitComma s
    simp only [splitComma]
    rw [h2]
    simp [hc]

theorem splitComma_joinComma {l : List Str} (hne : l ≠ [])
    (hnc : ∀ x ∈ l, ',' ∉ x) : splitComma (joinComma l) = l := by
  induction l with
  | nil => exact absurd rfl hne
  | cons x xs ih =>
    cases xs with
    | nil =>
      simp only [joinComma]
      exact splitComma_of_no_comma (hnc x (List.mem_cons_self x []))
    | cons y ys =>
      have hj : joinComma (x :: y :: ys) = x ++ ',' :: joinComma (y :: ys) := rfl
      rw [hj, splitComma_append_comma _ (hnc x (List.mem_cons_self x _))]
      rw [ih (by simp) (fun z hz => hnc z (List.mem_cons_of_mem x hz))]

theorem mem_joinComma {l : List Str} {c : Char} (hc : c ∈ joinComma l) :
    c = ',' ∨ ∃ x ∈ l, c ∈ x := by
  induction l with
  | nil => simp [joinComma] at hc
  | cons x xs ih =>
    cases xs with
    | nil =>
      right
      exact ⟨x, List.mem_cons_self x [], hc⟩
    | cons y ys =>
      have hj : joinComma (x :: y :: ys) = x ++ ',' :: joinComma (y :: ys) := rfl
      rw [hj] at hc
      rcases List.mem_append.mp hc with hc | hc
      · exact Or.inr ⟨x, List.mem_cons_self x _, hc⟩
      · rcases List.mem_cons.mp hc with hc | hc
        · exact Or.inl hc
        · rcases ih hc with hc | ⟨z, hz, hcz⟩
          · exact Or.inl hc
          · exact Or.inr ⟨z, List.mem_cons_of_mem x hz, hcz⟩

theorem replaceSemicolons_of_no_semi {s : Str} (h : ';' ∉ s) :
    replaceSemicolons s = s := by
  simp only [replaceSemicolons]
  have : ∀ c ∈ s, (if c = ';' then ',' else c) = c := by
    intro c hc
    have : c ≠ ';' := fun he => h (he ▸ hc)
    simp [this]
  rw [List.map_congr_left this]
  exact s.map_id

theorem no_semi_replaceSemicolons (s : Str) : ';' ∉ replaceSemicolons s := by
  intro h
  simp only [replaceSemicolons, List.mem_map] at h
  obtain ⟨c, _, hc⟩ := h
  by_cases hcs : c = ';'
  · simp [hcs] at hc
  · simp [hcs] at hc

theorem mem_of_mem_strip {c : Char} {s : Str} (h : c ∈ strip s) : c ∈ s := by
  simp only [strip, rstrip, lstrip] at h
  rw [List.mem_reverse] at h
  have h1 := (List.dropWhile_sublist (l := (s.dropWhile pyWhitespace).reverse) pyWhitespace).subset h
  rw [List.mem_reverse] at h1
  exact (List.dropWhile_sublist (l := s) pyWhitespace).subset h1

theorem not_mem_clean {p : Char} (hp : p.toNat < 65) {i : Str} (h : p ∉ i) :
    p ∉ lowerStr (strip i) := by
  intro hmem
  simp only [lowerStr, List.mem_map] at hmem
  obtain ⟨c, hc, hcl⟩ := hmem
  exact h ((toLower_eq_iff_lt65 hp).mp hcl ▸ mem_of_mem_strip hc)

theorem cleanItems_sublist (items seen : List Str) :
    (cleanItems items seen).Sublist (items.map fun i => lowerStr (strip i)) := by
  induction items generalizing seen with
  | nil => simp [cleanItems]
  | cons item rest ih =>
    simp only [cleanItems, List.map_cons]
    by_cases hcond : lowerStr (strip item) = [] ∨ lowerStr (strip item) ∈ seen
    · simp only [hcond, if_true]
      exact (ih seen).cons _
    · simp only [hcond, if_false]
      exact (ih _).cons₂ _

theorem mem_cleanItems {items seen : List Str} {x : Str}
    (hx : x ∈ cleanItems items seen) :
    x ∉ seen ∧ x ≠ [] ∧ ∃ i ∈ items, x = lowerStr (strip i) := by
  induction items generalizing seen with
  | nil => simp [cleanItems] at hx
  | cons item rest ih =>
    simp only [cleanItems] at hx
    by_cases hcond : lowerStr (strip item) = [] ∨ lowerStr (strip item) ∈ seen
    · rw [if_pos hcond] at hx
      obtain ⟨h1, h2, i, hi, he⟩ := ih hx
      exact ⟨h1, h2, i, List.mem_cons_of_mem item hi, he⟩
    · rw [if_neg hcond] at hx
      push_neg at hcond
      rcases List.mem_cons.mp hx with hx | hx
      · subst hx
        exact ⟨hcond.2, hcond.1, item, List.mem_cons_self item rest, rfl⟩
      · obtain ⟨h1, h2, i, hi, he⟩ := ih hx
        have h1' : x ∉ seen := fun hm => h1 (List.mem_cons_of_mem _ hm)
        exact ⟨h1', h2, i, List.mem_cons_of_mem item hi, he⟩

theorem cleanItems_nodup (items seen : List Str) : (cleanItems items seen).Nodup := by
  induction items generalizing seen with
  | nil => simp [cleanItems]
  | cons item rest ih =>
    simp only [cleanItems]
    by_cases hcond : lowerStr (strip item) = [] ∨ lowerStr (strip item) ∈ seen
    · rw [if_pos hcond]
      exact ih seen
    · rw [if_neg hcond]
      refine List.nodup_cons.mpr ⟨?_, ih _⟩
      intro hmem
      exact (mem_cleanItems hmem).1 (List.mem_cons_self _ _)

theorem cleanItems_fixed {items : List Str} (seen : List Str)
    (hfix : ∀ x ∈ items, lowerStr (strip x) = x ∧ x ≠ [])
    (hnd : items.Nodup) (hseen : ∀ x ∈ items, x ∉ seen) :
    cleanItems items seen = items := by
  induction items generalizing seen with
  | nil => rfl
  | cons item rest ih =>
    obtain ⟨hfixi, hnei⟩ := hfix item (List.mem_cons_self item rest)
    have hcond : ¬(lowerStr (strip item) = [] ∨ lowerStr (strip item) ∈ seen) := by
      rw [hfixi]
      push_neg
      exact ⟨hnei, hseen item (List.mem_cons_self item rest)⟩
    have hcond' : ¬(item = [] ∨ item ∈ seen) := hfixi ▸ hcond
    simp only [cleanItems, hfixi]
    rw [if_neg hcond']
    congr 1
    refine ih _ (fun x hx => hfix x (List.mem_cons_of_mem item hx))
      (List.nodup_cons.mp hnd).2 ?_
    intro x hx hmem
    rcases List.mem_cons.mp hmem with hmem | hmem
    · exact (List.nodup_cons.mp hnd).1 (hmem ▸ hx)
    · exact hseen x (List.mem_cons_of_mem item hx) hmem

theorem normalize_tags_eq_join (v : TagValue) :
    normalize_tags v = joinComma (normItems v) := by
  cases v <;> rfl

theorem rawTagItems_no_sep {v : TagValue} (hv : tagInputOK v) :
    ∀ i ∈ rawTagItems v, ',' ∉ i ∧ ';' ∉ i := by
  cases v with
  | null => simp [rawTagItems]
  | str s =>
    intro i hi
    refine ⟨mem_splitComma_no_comma i hi, ?_⟩
    intro hmem
    exact no_semi_replaceSemicolons s (mem_of_mem_splitComma hi ';' hmem)
  | list l => exact hv

theorem normItems_eq_clean (v : TagValue) :
    normItems v = cleanItems (rawTagItems v) [] := by
  cases v <;> rfl

theorem normItems_props {v : TagValue} (hv : tagInputOK v) :
    (normItems v).Nodup ∧
    ∀ y ∈ normItems v,
      y ≠ [] ∧ strip y = y ∧ lowerStr y = y ∧ ',' ∉ y ∧ ';' ∉ y := by
  rw [normItems_eq_clean]
  refine ⟨cleanItems_nodup _ _, ?_⟩
  intro y hy
  obtain ⟨-, hne, i, hi, he⟩ := mem_cleanItems hy
  obtain ⟨hic, his⟩ := rawTagItems_no_sep hv i hi
  subst he
  exact ⟨hne, (clean_fix i).1, (clean_fix i).2,
    not_mem_clean (by decide) hic, not_mem_clean (by decide) his⟩

theorem normalize_fixpoint {ys : List Str} (hnd : ys.Nodup)
    (hprops : ∀ y ∈ ys, y ≠ [] ∧ strip y = y ∧ lowerStr y = y ∧ ',' ∉ y ∧ ';' ∉ y) :
    normalize_tags (.str (joinComma ys)) = joinComma ys := by
  cases hys : ys with
  | nil => decide
  | cons y0 yrest =>
    rw [← hys]
    have hne : ys ≠ [] := by rw [hys]; simp
    have hsemi : ';' ∉ joinComma ys := by
      intro h
      rcases mem_joinComma h with h | ⟨x, hx, hcx⟩
      · exact absurd h.symm (by decide)
      · exact (hprops x hx).2.2.2.2 hcx
    simp only [normalize_tags]
    rw [replaceSemicolons_of_no_semi hsemi,
      splitComma_joinComma hne (fun x hx => (hprops x hx).2.2.2.1),
      cleanItems_fixed []
        (fun x hx => ⟨by rw [(hprops x hx).2.1, (hprops x hx).2.2.1], (hprops x hx).1⟩)
        hnd (by simp)]

theorem no_upper_of_lower_fix {y : Str} (h : lowerStr y = y) :
    ∀ c ∈ y, ¬(65 ≤ c.toNat ∧ c.toNat ≤ 90) := by
  intro c hc
  rw [← h] at hc
  simp only [lowerStr, List.mem_map] at hc
  obtain ⟨c', _, he⟩ := hc
  exact he ▸ toLower_not_upper c'

/-- C2 (counterexample): the claim quantifies over every sequence input,
but for a sequence element containing an embedded comma with surrounding
whitespace, `normalize` is not idempotent: `normalize(["a , b"]) = "a , b"`
while renormalizing that string gives `"a,b"`. -/
theorem C2_tags_counterexample :
    normalize_tags (.str (normalize_tags (.list [S "a , b"]))) ≠
      normalize_tags (.list [S "a , b"]) := by
  decide

/-- C2 (amended): for every tag input that is a string, absent, or a
sequence whose elements contain no embedded comma/semicolon separator,
`normalize` is idempotent and its output splits (on commas) into the
canonical item list: no duplicates, no empty items, no item with an
uppercase character or surrounding whitespace, first-occurrence order
preserved (the item list is a sublist of the cleaned raw items). -/
theorem C2_tags_canonical (v : TagValue) (hv : tagInputOK v) :
    normalize_tags (.str (normalize_tags v)) = normalize_tags v ∧
    normalize_tags v = joinComma (normItems v) ∧
    (normItems v).Nodup ∧
    (∀ y ∈ normItems v, y ≠ [] ∧ strip y = y ∧
      (∀ c ∈ y, ¬(65 ≤ c.toNat ∧ c.toNat ≤ 90)) ∧ ',' ∉ y) ∧
    (normalize_tags v ≠ [] → splitComma (normalize_tags v) = normItems v) ∧
    (normItems v).Sublist ((rawTagItems v).map fun i => lowerStr (strip i)) := by
  obtain ⟨hnd, hprops⟩ := normItems_props hv
  have hjoin : normalize_tags v = joinComma (normItems v) := normalize_tags_eq_join v
  refine ⟨?_, hjoin, hnd, ?_, ?_, ?_⟩
  · rw [hjoin]
    exact normalize_fixpoint hnd hprops
  · intro y hy
    obtain ⟨h1, h2, h3, h4, _⟩ := hprops y hy
    exact ⟨h1, h2, no_upper_of_lower_fix h3, h4⟩
  · intro hne
    rw [hjoin] at hne ⊢
    have hnil : normItems v ≠ [] := by
      intro h
      rw [h] at hne
      exact hne rfl
    exact splitComma_joinComma hnil (fun x hx => (hprops x hx).2.2.2.1)
  · rw [normItems_eq_clean]
    exact cleanItems_sublist _ _

/-- Witness for C2 at the concrete string input "Milk, Eggs; milk". -/
theorem C2_tags_canonical_witness :
    tagInputOK (.str (S "Milk, Eggs; milk")) ∧
    normalize_tags (.str (normalize_tags (.str (S "Milk, Eggs; milk")))) =
      normalize_tags (.str (S "Milk, Eggs; milk")) ∧
    normalize_tags (.str (S "Milk, Eggs; milk")) = S "milk,eggs" :=
  ⟨trivial, (C2_tags_canonical (.str (S "Milk, Eggs; milk")) trivial).1, by decide⟩

theorem strLt_asymm : ∀ {a b : Str}, strLt a b = true → strLt b a = false := by
  intro a
  induction a with
  | nil =>
    intro b h
    cases b with
    | nil => simp [strLt] at h
    | cons y ys => simp [strLt]
  | cons x xs ih =>
    intro b h
    cases b with
    | nil => simp [strLt] at h
    | cons y ys =>
      simp only [strLt] at h ⊢
      by_cases hxy : x.toNat < y.toNat
      · rw [if_neg (by omega), if_pos hxy]
      · by_cases hyx : y.toNat < x.toNat
        · rw [if_neg hxy, if_pos hyx] at h
          exact absurd h (by simp)
        · rw [if_neg hxy, if_neg hyx] at h
          rw [if_neg hyx, if_neg hxy]
          exact ih h

theorem strLt_chain : ∀ (c a b : Str), strLt c a = true →
    strLt c b = true ∨ strLt b a = true := by
  intro c
  induction c with
  | nil =>
    intro a b h
    cases a with
    | nil => simp [strLt] at h
    | cons x xs =>
      cases b with
      | nil => right; simp [strLt]
      | cons y ys => left; simp [strLt]
  | cons cc cs ih =>
    intro a b h
    cases a with
    | nil => simp [strLt] at h
    | cons aa as =>
      cases b with
      | nil => right; simp [strLt]
      | cons bb bs =>
        simp only [strLt] at h ⊢
        by_cases hca : cc.toNat < aa.toNat
        · by_cases hcb : cc.toNat < bb.toNat
          · left; rw [if_pos hcb]
          · right
            have : bb.toNat < aa.toNat := by omega
            rw [if_pos this]
        · by_cases hac : aa.toNat < cc.toNat
          · rw [if_neg hca, if_pos hac] at h
            exact absurd h (by simp)
          · rw [if_neg hca, if_neg hac] at h
            by_cases hcb : cc.toNat < bb.toNat
            · left; rw [if_pos hcb]
            · by_cases hbc : bb.toNat < cc.toNat
              · right
                rw [if_pos (by omega)]
              · rcases ih as bs h with h2 | h2
                · left
                  rw [if_neg hcb, if_neg hbc]
                  exact h2
                · right
                  rw [if_neg (by omega), if_neg (by omega)]
                  exact h2

theorem strLe_total (a b : Str) : strLe a b = true ∨ strLe b a = true := by
  simp only [strLe, Bool.not_eq_true']
  by_cases h : strLt b a = true
  · right; exact strLt_asymm h
  · left
    cases hh : strLt b a
    · rfl
    · exact absurd hh h

theorem strLe_trans {a b c : Str} (h1 : strLe a b = true) (h2 : strLe b c = true) :
    strLe a c = true := by
  simp only [strLe, Bool.not_eq_true'] at h1 h2 ⊢
  cases hca : strLt c a
  · rfl
  · rcases strLt_chain c a b hca with h | h
    · rw [h] at h2; exact absurd h2 (by simp)
    · rw [h] at h1; exact absurd h1 (by simp)

instance : IsTotal Note updatedDescN :=
  ⟨fun a b => strLe_total b.updated_at a.updated_at⟩

instance : IsTrans Note updatedDescN :=
  ⟨fun _ _ _ h1 h2 => strLe_trans h2 h1⟩

instance : IsTotal TaskRow updatedDescT :=
  ⟨fun a b => strLe_total b.updated_at a.updated_at⟩

instance : IsTrans TaskRow updatedDescT :=
  ⟨fun _ _ _ h1 h2 => strLe_trans h2 h1⟩

instance : IsTotal Event startAscE :=
  ⟨fun a b => strLe_total a.start b.start⟩

instance : IsTrans Event startAscE :=
  ⟨fun _ _ _ h1 h2 => strLe_trans h1 h2⟩

theorem mem_addIndex_of_mem {x : Str} {i : List Str} (n : Str) (h : x ∈ i) :
    x ∈ addIndex i n := by
  unfold addIndex
  split
  · exact h
  · exact List.mem_append_left _ h

theorem mem_addIndex_self (i : List Str) (n : Str) : n ∈ addIndex i n := by
  unfold addIndex
  split
  · assumption
  · exact List.mem_append_right _ (List.mem_singleton.mpr rfl)

theorem nodup_addIndex {i : List Str} (n : Str) (h : i.Nodup) :
    (addIndex i n).Nodup := by
  unfold addIndex
  split
  · exact h
  · rw [List.nodup_append]
    exact ⟨h, List.nodup_singleton n, by simpa using (by assumption : n ∉ i)⟩

theorem mem_foldl_addIndex_of_mem {x : Str} (names : List Str) :
    ∀ {i : List Str}, x ∈ i → x ∈ names.foldl addIndex i := by
  induction names with
  | nil => intro i h; exact h
  | cons n rest ih =>
    intro i h
    exact ih (mem_addIndex_of_mem n h)

theorem mem_foldl_addIndex_names (names : List Str) :
    ∀ (i : List Str), ∀ n ∈ names, n ∈ names.foldl addIndex i := by
  induction names with
  | nil => intro i n h; simp at h
  | cons n0 rest ih =>
    intro i n h
    rcases List.mem_cons.mp h with h | h
    · subst h
      exact mem_foldl_addIndex_of_mem rest (mem_addIndex_self i n)
    · exact ih (addIndex i n0) n h

theorem foldl_addIndex_of_all_mem (names : List Str) :
    ∀ {i : List Str}, (∀ n ∈ names, n ∈ i) → names.foldl addIndex i = i := by
  induction names with
  | nil => intro i _; rfl
  | cons n0 rest ih =>
    intro i h
    have h0 : addIndex i n0 = i := by
      unfold addIndex
      rw [if_pos (h n0 (List.mem_cons_self n0 rest))]
    show rest.foldl addIndex (addIndex i n0) = i
    rw [h0]
    exact ih (fun n hn => h n (List.mem_cons_of_mem n0 hn))

theorem nodup_foldl_addIndex (names : List Str) :
    ∀ {i : List Str}, i.Nodup → (names.foldl addIndex i).Nodup := by
  induction names with
  | nil => intro i h; exact h
  | cons n0 rest ih =>
    intro i h
    exact ih (nodup_addIndex n0 h)

theorem createIndexes_idem (i : List Str) :
    createIndexes (createIndexes i) = createIndexes i :=
  foldl_addIndex_of_all_mem allIndexNames
    (fun n hn => mem_foldl_addIndex_names allIndexNames i n hn)

theorem createIndexes_nodup {i : List Str} (h : i.Nodup) :
    (createIndexes i).Nodup :=
  nodup_foldl_addIndex allIndexNames h

theorem mem_cols_ensureCol_self {ρ : Type} (t : MTable ρ) (name : Str)
    (f : ρ → ρ) : name ∈ (ensureCol t name f).cols := by
  unfold ensureCol
  split
  · assumption
  · exact List.mem_append_right _ (List.mem_singleton.mpr rfl)

theorem mem_cols_ensureCol_of_mem {ρ : Type} {t : MTable ρ} {x : Str}
    (name : Str) (f : ρ → ρ) (h : x ∈ t.cols) :
    x ∈ (ensureCol t name f).cols := by
  unfold ensureCol
  split
  · exact h
  · exact List.mem_append_left _ h

theorem ensureCol_of_mem {ρ : Type} {t : MTable ρ} {name : Str}
    (f : ρ → ρ) (h : name ∈ t.cols) : ensureCol t name f = t := by
  unfold ensureCol
  rw [if_pos h]

theorem nodup_cols_ensureCol {ρ : Type} {t : MTable ρ} (name : Str)
    (f : ρ → ρ) (h : t.cols.Nodup) : (ensureCol t name f).cols.Nodup := by
  unfold ensureCol
  split
  · exact h
  · rw [List.nodup_append]
    exact ⟨h, List.nodup_singleton name, by simpa using (by assumption : name ∉ t.cols)⟩

/-- Transport a `Forall₂` across a map on the right, with access to
left-side membership. -/
theorem forall₂_map_final {α β γ : Type} {Q : α → β → Prop} {R : α → γ → Prop}
    {g : β → γ} {l : List α} {m : List β} (h : List.Forall₂ Q l m)
    (himp : ∀ a ∈ l, ∀ b, Q a b → R a (g b)) : List.Forall₂ R l (m.map g) := by
  induction h with
  | nil => exact List.Forall₂.nil
  | @cons a b l' m' hab _ ih =>
    simp only [List.map_cons]
    exact List.Forall₂.cons
      (himp a (List.mem_cons_self a l') b hab)
      (ih (fun x hx => himp x (List.mem_cons_of_mem a hx)))

theorem forall₂_same_of_mem {α : Type} {Q : α → α → Prop} {l : List α}
    (h : ∀ a ∈ l, Q a a) : List.Forall₂ Q l l := by
  induction l with
  | nil => exact List.Forall₂.nil
  | cons a l' ih =>
    exact List.Forall₂.cons (h a (List.mem_cons_self a l'))
      (ih (fun x hx => h x (List.mem_cons_of_mem a hx)))

/-- One `ensureCol` step preserves a row relation, given that the
relation survives the column default on rows from the original table. -/
theorem forall₂_ensureCol {ρ : Type} {Q : ρ → ρ → Prop} {l : List ρ}
    (t : MTable ρ) (name : Str) (f : ρ → ρ)
    (h : List.Forall₂ Q l t.rows)
    (hstep : name ∉ t.cols → ∀ a ∈ l, ∀ b, Q a b → Q a (f b)) :
    List.Forall₂ Q l (ensureCol t name f).rows := by
  unfold ensureCol
  split
  · exact h
  · exact forall₂_map_final h (hstep (by assumption))

theorem backfillNoteRow_idem (r : NoteMRow) :
    backfillNoteRow (backfillNoteRow r) = backfillNoteRow r := by
  simp [backfillNoteRow]

theorem backfillEventRow_idem (r : EventMRow) :
    backfillEventRow (backfillEventRow r) = backfillEventRow r := by
  simp [backfillEventRow]

theorem backfillTaskRow_idem (r : TaskMRow) :
    backfillTaskRow (backfillTaskRow r) = backfillTaskRow r := by
  simp [backfillTaskRow]

theorem ensureNotesColumns_complete (t : MTable NoteMRow)
    (h1 : S "tags" ∈ t.cols) (h2 : S "pinned" ∈ t.cols)
    (h3 : S "updated_at" ∈ t.cols) : ensureNotesColumns t = t := by
  unfold ensureNotesColumns
  simp only [ensureCol_of_mem _ h1, ensureCol_of_mem _ h2, ensureCol_of_mem _ h3]

theorem ensureEventsColumns_complete (t : MTable EventMRow)
    (h1 : S "location" ∈ t.cols) (h2 : S "description" ∈ t.cols)
    (h3 : S "all_day" ∈ t.cols) (h4 : S "updated_at" ∈ t.cols) :
    ensureEventsColumns t = t := by
  unfold ensureEventsColumns
  simp only [ensureCol_of_mem _ h1, ensureCol_of_mem _ h2, ensureCol_of_mem _ h3,
    ensureCol_of_mem _ h4]

theorem ensureTasksColumns_complete (t : MTable TaskMRow)
    (h1 : S "description" ∈ t.cols) (h2 : S "status" ∈ t.cols)
    (h3 : S "priority" ∈ t.cols) (h4 : S "due_at" ∈ t.cols)
    (h5 : S "tags" ∈ t.cols) (h6 : S "updated_at" ∈ t.cols) :
    ensureTasksColumns t = t := by
  unfold ensureTasksColumns
  simp only [ensureCol_of_mem _ h1, ensureCol_of_mem _ h2, ensureCol_of_mem _ h3,
    ensureCol_of_mem _ h4, ensureCol_of_mem _ h5, ensureCol_of_mem _ h6]

theorem ensureNotesColumns_cols (t : MTable NoteMRow) :
    S "tags" ∈ (ensureNotesColumns t).cols ∧
    S "pinned" ∈ (ensureNotesColumns t).cols ∧
    S "updated_at" ∈ (ensureNotesColumns t).cols := by
  unfold ensureNotesColumns
  exact ⟨mem_cols_ensureCol_of_mem _ _
      (mem_cols_ensureCol_of_mem _ _ (mem_cols_ensureCol_self _ _ _)),
    mem_cols_ensureCol_of_mem _ _ (mem_cols_ensureCol_self _ _ _),
    mem_cols_ensureCol_self _ _ _⟩

theorem ensureEventsColumns_cols (t : MTable EventMRow) :
    S "location" ∈ (ensureEventsColumns t).cols ∧
    S "description" ∈ (ensureEventsColumns t).cols ∧
    S "all_day" ∈ (ensureEventsColumns t).cols ∧
    S "updated_at" ∈ (ensureEventsColumns t).cols := by
  unfold ensureEventsColumns
  exact ⟨mem_cols_ensureCol_of_mem _ _ (mem_cols_ensureCol_of_mem _ _
      (mem_cols_ensureCol_of_mem _ _ (mem_cols_ensureCol_self _ _ _))),
    mem_cols_ensureCol_of_mem _ _ (mem_cols_ensureCol_of_mem _ _
      (mem_cols_ensureCol_self _ _ _)),
    mem_cols_ensureCol_of_mem _ _ (mem_cols_ensureCol_self _ _ _),
    mem_cols_ensureCol_self _ _ _⟩

theorem ensureTasksColumns_cols (t : MTable TaskMRow) :
    S "description" ∈ (ensureTasksColumns t).cols ∧
    S "status" ∈ (ensureTasksColumns t).cols ∧
    S "priority" ∈ (ensureTasksColumns t).cols ∧
    S "due_at" ∈ (ensureTasksColumns t).cols ∧
    S "tags" ∈ (ensureTasksColumns t).cols ∧
    S "updated_at" ∈ (ensureTasksColumns t).cols := by
  unfold ensureTasksColumns
  exact ⟨mem_cols_ensureCol_of_mem _ _ (mem_cols_ensureCol_of_mem _ _
      (mem_cols_ensureCol_of_mem _ _ (mem_cols_ensureCol_of_mem _ _
        (mem_cols_ensureCol_of_mem _ _ (mem_cols_ensureCol_self _ _ _))))),
    mem_cols_ensureCol_of_mem _ _ (mem_cols_ensureCol_of_mem _ _
      (mem_cols_ensureCol_of_mem _ _ (mem_cols_ensureCol_of_mem _ _
        (mem_cols_ensureCol_self _ _ _)))),
    mem_cols_ensureCol_of_mem _ _ (mem_cols_ensureCol_of_mem _ _
      (mem_cols_ensureCol_of_mem _ _ (mem_cols_ensureCol_self _ _ _))),
    mem_cols_ensureCol_of_mem _ _ (mem_cols_ensureCol_of_mem _ _
      (mem_cols_ensureCol_self _ _ _)),
    mem_cols_ensureCol_of_mem _ _ (mem_cols_ensureCol_self _ _ _),
    mem_cols_ensureCol_self _ _ _⟩

theorem migrateNotes_idem (t : MTable NoteMRow) :
    migrateNotes (migrateNotes t) = migrateNotes t := by
  obtain ⟨h1, h2, h3⟩ := ensureNotesColumns_cols t
  have hc := ensureNotesColumns_complete
    ⟨(ensureNotesColumns t).cols, (ensureNotesColumns t).rows.map backfillNoteRow⟩
    h1 h2 h3
  show MTable.mk
      (ensureNotesColumns (MTable.mk (ensureNotesColumns t).cols
        ((ensureNotesColumns t).rows.map backfillNoteRow))).cols
      ((ensureNotesColumns (MTable.mk (ensureNotesColumns t).cols
        ((ensureNotesColumns t).rows.map backfillNoteRow))).rows.map backfillNoteRow)
      = MTable.mk (ensureNotesColumns t).cols
        ((ensureNotesColumns t).rows.map backfillNoteRow)
  rw [hc]
  congr 1
  rw [List.map_map]
  exact List.map_congr_left fun r _ => backfillNoteRow_idem r

theorem migrateEvents_eq (t : MTable EventMRow) :
    migrateEvents t = MTable.mk (ensureEventsColumns t).cols
      ((ensureEventsColumns t).rows.map backfillEventRow) := rfl

theorem migrateEvents_idem (t : MTable EventMRow) :
    migrateEvents (migrateEvents t) = migrateEvents t := by
  obtain ⟨h1, h2, h3, h4⟩ := ensureEventsColumns_cols t
  rw [migrateEvents_eq t,
    migrateEvents_eq (MTable.mk (ensureEventsColumns t).cols
      ((ensureEventsColumns t).rows.map backfillEventRow)),
    ensureEventsColumns_complete (MTable.mk (ensureEventsColumns t).cols
      ((ensureEventsColumns t).rows.map backfillEventRow)) h1 h2 h3 h4]
  congr 1
  rw [List.map_map]
  exact List.map_congr_left fun r _ => backfillEventRow_idem r

theorem migrateTasks_eq (t : MTable TaskMRow) :
    migrateTasks t = MTable.mk (ensureTasksColumns t).cols
      ((ensureTasksColumns t).rows.map backfillTaskRow) := rfl

theorem migrateTasks_idem (t : MTable TaskMRow) :
    migrateTasks (migrateTasks t) = migrateTasks t := by
  obtain ⟨h1, h2, h3, h4, h5, h6⟩ := ensureTasksColumns_cols t
  rw [migrateTasks_eq t,
    migrateTasks_eq (MTable.mk (ensureTasksColumns t).cols
      ((ensureTasksColumns t).rows.map backfillTaskRow)),
    ensureTasksColumns_complete (MTable.mk (ensureTasksColumns t).cols
      ((ensureTasksColumns t).rows.map backfillTaskRow)) h1 h2 h3 h4 h5 h6]
  congr 1
  rw [List.map_map]
  exact List.map_congr_left fun r _ => backfillTaskRow_idem r

theorem init_schema_idem (db : MDB) :
    _init_schema (_init_schema db) = _init_schema db := by
  simp only [_init_schema, _run_migrations, execSchemaScript, Option.map_some,
    Option.getD_some, Option.map]
  rw [migrateNotes_idem, migrateEvents_idem, migrateTasks_idem]
  simp [createIndexes_idem]

theorem ensureNotesColumns_eq (t : MTable NoteMRow) :
    ensureNotesColumns t =
      ensureCol (ensureCol (ensureCol t (S "tags")
          (fun r => { r with tags := some [] }))
        (S "pinned") (fun r => { r with pinned := some 0 }))
        (S "updated_at") (fun r => { r with updated_at := none }) := rfl

theorem ensureEventsColumns_eq (t : MTable EventMRow) :
    ensureEventsColumns t =
      ensureCol (ensureCol (ensureCol (ensureCol t (S "location")
            (fun r => { r with location := some [] }))
          (S "description") (fun r => { r with description := some [] }))
        (S "all_day") (fun r => { r with all_day := some 0 }))
        (S "updated_at") (fun r => { r with updated_at := none }) := rfl

theorem ensureTasksColumns_eq (t : MTable TaskMRow) :
    ensureTasksColumns t =
      ensureCol (ensureCol (ensureCol (ensureCol (ensureCol (ensureCol t
                (S "description") (fun r => { r with description := some [] }))
              (S "status") (fun r => { r with status := some (S "pending") }))
            (S "priority") (fun r => { r with priority := some 3 }))
          (S "due_at") (fun r => { r with due_at := none }))
        (S "tags") (fun r => { r with tags := some [] }))
        (S "updated_at") (fun r => { r with updated_at := none }) := rfl

theorem not_mem_ensureCol {ρ : Type} {t : MTable ρ} {x name : Str}
    {f : ρ → ρ} (h : x ∉ (ensureCol t name f).cols) : x ∉ t.cols :=
  fun hm => h (mem_cols_ensureCol_of_mem name f hm)

theorem ensureNotes_forall₂ {t : MTable NoteMRow} (hwf : notesWF t) :
    List.Forall₂ colStepN t.rows (ensureNotesColumns t).rows := by
  obtain ⟨-, hw1, hw2, hw3⟩ := hwf
  rw [ensureNotesColumns_eq]
  have h0 : List.Forall₂ colStepN t.rows t.rows :=
    forall₂_same_of_mem (fun a _ => ⟨rfl, rfl, rfl, rfl, rfl, rfl⟩)
  have h1 := forall₂_ensureCol t (S "tags") (fun r => { r with tags := some [] })
    h0 (fun hmiss a ha b hab => by
      obtain ⟨e1, e2, e3, e4, e5, e6⟩ := hab
      have ha' : a.tags = none := hw1 hmiss a ha
      exact ⟨e1, e2, e3, e4, by simp [ha'], e6⟩)
  have h2 := forall₂_ensureCol _ (S "pinned") (fun r => { r with pinned := some 0 })
    h1 (fun hmiss a ha b hab => by
      obtain ⟨e1, e2, e3, e4, e5, e6⟩ := hab
      have ha' : a.pinned = none := hw2 (not_mem_ensureCol hmiss) a ha
      exact ⟨e1, e2, e3, e4, e5, by simp [ha']⟩)
  exact forall₂_ensureCol _ (S "updated_at") (fun r => { r with updated_at := none })
    h2 (fun hmiss a ha b hab => by
      obtain ⟨e1, e2, e3, e4, e5, e6⟩ := hab
      have ha' : a.updated_at = none :=
        hw3 (not_mem_ensureCol (not_mem_ensureCol hmiss)) a ha
      exact ⟨e1, e2, e3, by simp [ha', e4 ▸ ha'], e5, e6⟩)

theorem ensureEvents_forall₂ {t : MTable EventMRow} (hwf : eventsWF t) :
    List.Forall₂ colStepE t.rows (ensureEventsColumns t).rows := by
  obtain ⟨-, hw1, hw2, hw3, hw4⟩ := hwf
  rw [ensureEventsColumns_eq]
  have h0 : List.Forall₂ colStepE t.rows t.rows :=
    forall₂_same_of_mem (fun a _ => ⟨rfl, rfl, rfl, rfl, rfl, rfl, rfl, rfl⟩)
  have h1 := forall₂_ensureCol t (S "location")
    (fun r => { r with location := some [] })
    h0 (fun hmiss a ha b hab => by
      obtain ⟨e1, e2, e3, e4, e5, e6, e7, e8⟩ := hab
      have ha' : a.location = none := hw1 hmiss a ha
      exact ⟨e1, e2, e3, e4, e5, by simp [ha'], e7, e8⟩)
  have h2 := forall₂_ensureCol _ (S "description")
    (fun r => { r with description := some [] })
    h1 (fun hmiss a ha b hab => by
      obtain ⟨e1, e2, e3, e4, e5, e6, e7, e8⟩ := hab
      have ha' : a.description = none := hw2 (not_mem_ensureCol hmiss) a ha
      exact ⟨e1, e2, e3, e4, e5, e6, by simp [ha'], e8⟩)
  have h3 := forall₂_ensureCol _ (S "all_day")
    (fun r => { r with all_day := some 0 })
    h2 (fun hmiss a ha b hab => by
      obtain ⟨e1, e2, e3, e4, e5, e6, e7, e8⟩ := hab
      have ha' : a.all_day = none :=
        hw3 (not_mem_ensureCol (not_mem_ensureCol hmiss)) a ha
      exact ⟨e1, e2, e3, e4, e5, e6, e7, by simp [ha']⟩)
  exact forall₂_ensureCol _ (S "updated_at")
    (fun r => { r with updated_at := none })
    h3 (fun hmiss a ha b hab => by
      obtain ⟨e1, e2, e3, e4, e5, e6, e7, e8⟩ := hab
      have ha' : a.updated_at = none :=
        hw4 (not_mem_ensureCol (not_mem_ensureCol (not_mem_ensureCol hmiss))) a ha
      exact ⟨e1, e2, e3, e4, by simp [ha', e5 ▸ ha'], e6, e7, e8⟩)

set_option maxHeartbeats 2000000 in
theorem ensureTasks_forall₂ {t : MTable TaskMRow} (hwf : tasksWF t) :
    List.Forall₂ colStepT t.rows (ensureTasksColumns t).rows := by
  obtain ⟨-, hw1, hw2, hw3, hw4, hw5, hw6⟩ := hwf
  rw [ensureTasksColumns_eq]
  have h0 : List.Forall₂ colStepT t.rows t.rows :=
    forall₂_same_of_mem (fun a _ =>
      ⟨rfl, rfl, rfl, rfl, rfl, rfl, rfl, fun v hv => hv⟩)
  have h1 := forall₂_ensureCol t (S "description")
    (fun r => { r with description := some [] })
    h0 (fun hmiss a ha b hab => by
      obtain ⟨e1, e2, e3, e4, e5, e6, e7, e8⟩ := hab
      have ha' : a.description = none := hw1 hmiss a ha
      exact ⟨e1, e2, e3, e4, e5, e6, e7, fun v hv => by
        rw [ha'] at hv; exact absurd hv (by simp)⟩)
  have h2 := forall₂_ensureCol _ (S "status")
    (fun r => { r with status := some (S "pending") })
    h1 (fun hmiss a ha b hab => by
      obtain ⟨e1, e2, e3, e4, e5, e6, e7, e8⟩ := hab
      have ha' : a.status = none := hw2 (not_mem_ensureCol hmiss) a ha
      exact ⟨e1, e2, e3, e4, e5, by simp [ha'], e7, e8⟩)
  have h3 := forall₂_ensureCol _ (S "priority")
    (fun r => { r with priority := some 3 })
    h2 (fun hmiss a ha b hab => by
      obtain ⟨e1, e2, e3, e4, e5, e6, e7, e8⟩ := hab
      have ha' : a.priority = none :=
        hw3 (not_mem_ensureCol (not_mem_ensureCol hmiss)) a ha
      exact ⟨e1, e2, e3, e4, e5, e6, by simp [ha'], e8⟩)
  have h4 := forall₂_ensureCol _ (S "due_at")
    (fun r => { r with due_at := none })
    h3 (fun hmiss a ha b hab => by
      obtain ⟨e1, e2, e3, e4, e5, e6, e7, e8⟩ := hab
      have ha' : a.due_at = none :=
        hw4 (not_mem_ensureCol (not_mem_ensureCol (not_mem_ensureCol hmiss))) a ha
      exact ⟨e1, e2, by simp [ha'], e4, e5, e6, e7, e8⟩)
  have h5 := forall₂_ensureCol _ (S "tags")
    (fun r => { r with tags := some [] })
    h4 (fun hmiss a ha b hab => by
      obtain ⟨e1, e2, e3, e4, e5, e6, e7, e8⟩ := hab
      have ha' : a.tags = none :=
        hw5 (not_mem_ensureCol (not_mem_ensureCol (not_mem_ensureCol
          (not_mem_ensureCol hmiss)))) a ha
      exact ⟨e1, e2, e3, e4, by simp [ha'], e6, e7, e8⟩)
  exact forall₂_ensureCol _ (S "updated_at")
    (fun r => { r with updated_at := none })
    h5 (fun hmiss a ha b hab => by
      obtain ⟨e1, e2, e3, e4, e5, e6, e7, e8⟩ := hab
      have ha' : a.updated_at = none :=
        hw6 (not_mem_ensureCol (not_mem_ensureCol (not_mem_ensureCol
          (not_mem_ensureCol (not_mem_ensureCol hmiss))))) a ha
      exact ⟨e1, e2, e3, by simp [ha', e4 ▸ ha'], e5, e6, e7, e8⟩)

theorem migrateNotes_forall₂ {t : MTable NoteMRow} (hwf : notesWF t) :
    List.Forall₂ noteMigrated t.rows (migrateNotes t).rows := by
  have h := ensureNotes_forall₂ hwf
  have hrw : (migrateNotes t).rows = (ensureNotesColumns t).rows.map backfillNoteRow := rfl
  rw [hrw]
  exact forall₂_map_final h (fun a _ b hab => by
    obtain ⟨e1, e2, e3, e4, e5, e6⟩ := hab
    exact ⟨by simp [backfillNoteRow, e1], by simp [backfillNoteRow, e2],
      by simp [backfillNoteRow, e3], by simp [backfillNoteRow, e4, e3],
      by simp [backfillNoteRow, e5], by simp [backfillNoteRow, e6]⟩)

theorem migrateEvents_forall₂ {t : MTable EventMRow} (hwf : eventsWF t) :
    List.Forall₂ eventMigrated t.rows (migrateEvents t).rows := by
  have h := ensureEvents_forall₂ hwf
  have hrw : (migrateEvents t).rows = (ensureEventsColumns t).rows.map backfillEventRow := rfl
  rw [hrw]
  exact forall₂_map_final h (fun a _ b hab => by
    obtain ⟨e1, e2, e3, e4, e5, e6, e7, e8⟩ := hab
    exact ⟨by simp [backfillEventRow, e1], by simp [backfillEventRow, e2],
      by simp [backfillEventRow, e3], by simp [backfillEventRow, e4],
      by simp [backfillEventRow, e5, e4], by simp [backfillEventRow, e6],
      by simp [backfillEventRow, e7], by simp [backfillEventRow, e8]⟩)

theorem migrateTasks_forall₂ {t : MTable TaskMRow} (hwf : tasksWF t) :
    List.Forall₂ taskMigrated t.rows (migrateTasks t).rows := by
  have h := ensureTasks_forall₂ hwf
  have hrw : (migrateTasks t).rows = (ensureTasksColumns t).rows.map backfillTaskRow := rfl
  rw [hrw]
  exact forall₂_map_final h (fun a _ b hab => by
    obtain ⟨e1, e2, e3, e4, e5, e6, e7, e8⟩ := hab
    exact ⟨by simp [backfillTaskRow, e1], by simp [backfillTaskRow, e2],
      by simp [backfillTaskRow, e3], by simp [backfillTaskRow, e4, e2],
      by simp [backfillTaskRow, e5], by simp [backfillTaskRow, e6],
      by simp [backfillTaskRow, e7],
      fun v hv => by simp [backfillTaskRow]; exact e8 v hv⟩)

theorem ensureNotesColumns_nodup {t : MTable NoteMRow} (h : t.cols.Nodup) :
    (ensureNotesColumns t).cols.Nodup := by
  rw [ensureNotesColumns_eq]
  exact nodup_cols_ensureCol _ _
    (nodup_cols_ensureCol _ _ (nodup_cols_ensureCol _ _ h))

theorem ensureEventsColumns_nodup {t : MTable EventMRow} (h : t.cols.Nodup) :
    (ensureEventsColumns t).cols.Nodup := by
  rw [ensureEventsColumns_eq]
  exact nodup_cols_ensureCol _ _ (nodup_cols_ensureCol _ _
    (nodup_cols_ensureCol _ _ (nodup_cols_ensureCol _ _ h)))

theorem ensureTasksColumns_nodup {t : MTable TaskMRow} (h : t.cols.Nodup) :
    (ensureTasksColumns t).cols.Nodup := by
  rw [ensureTasksColumns_eq]
  exact nodup_cols_ensureCol _ _ (nodup_cols_ensureCol _ _
    (nodup_cols_ensureCol _ _ (nodup_cols_ensureCol _ _
      (nodup_cols_ensureCol _ _ (nodup_cols_ensureCol _ _ h)))))

theorem notesFreshCols_nodup : notesFreshCols.Nodup := by decide

theorem eventsFreshCols_nodup : eventsFreshCols.Nodup := by decide

theorem tasksFreshCols_nodup : tasksFreshCols.Nodup := by decide

set_option maxHeartbeats 2000000 in
theorem C1aux_notes_nodup (db : MDB) (hwf : MDBWF db) :
    ∀ t, (_init_schema db).notes = some t → t.cols.Nodup := by
  obtain ⟨-, hn, -, -⟩ := hwf
  have hnotes : (_init_schema db).notes =
      some (migrateNotes (db.notes.getD ⟨notesFreshCols, []⟩)) := rfl
  intro t hti
  rw [hnotes] at hti
  cases hti
  show (ensureNotesColumns _).cols.Nodup
  apply ensureNotesColumns_nodup
  cases hdb : db.notes with
  | none => exact notesFreshCols_nodup
  | some t0 => exact (hn t0 hdb).1

set_option maxHeartbeats 2000000 in
theorem C1aux_events_nodup (db : MDB) (hwf : MDBWF db) :
    ∀ t, (_init_schema db).events = some t → t.cols.Nodup := by
  obtain ⟨-, -, he, -⟩ := hwf
  have hevents : (_init_schema db).events =
      some (migrateEvents (db.events.getD ⟨eventsFreshCols, []⟩)) := rfl
  intro t hti
  rw [hevents] at hti
  cases hti
  show (ensureEventsColumns _).cols.Nodup
  apply ensureEventsColumns_nodup
  cases hdb : db.events with
  | none => exact eventsFreshCols_nodup
  | some t0 => exact (he t0 hdb).1

set_option maxHeartbeats 2000000 in
theorem C1aux_tasks_nodup (db : MDB) (hwf : MDBWF db) :
    ∀ t, (_init_schema db).tasks = some t → t.cols.Nodup := by
  obtain ⟨-, -, -, ht⟩ := hwf
  have htasks : (_init_schema db).tasks =
      some (migrateTasks (db.tasks.getD ⟨tasksFreshCols, []⟩)) := rfl
  intro t hti
  rw [htasks] at hti
  cases hti
  show (ensureTasksColumns _).cols.Nodup
  apply ensureTasksColumns_nodup
  cases hdb : db.tasks with
  | none => exact tasksFreshCols_nodup
  | some t0 => exact (ht t0 hdb).1

set_option maxHeartbeats 2000000 in
theorem C1aux_indexes_nodup (db : MDB) (hwf : MDBWF db) :
    (_init_schema db).indexes.Nodup := by
  have hindexes : (_init_schema db).indexes =
      createIndexes (createIndexes db.indexes) := by
    simp only [_init_schema, _run_migrations, execSchemaScript]
  rw [hindexes]
  exact createIndexes_nodup (createIndexes_nodup hwf.1)

set_option maxHeartbeats 2000000 in
theorem C1aux_notes_rows (db : MDB) (hwf : MDBWF db) :
    ∀ t0 t1, db.notes = some t0 → (_init_schema db).notes = some t1 →
      List.Forall₂ noteMigrated t0.rows t1.rows := by
  obtain ⟨-, hn, -, -⟩ := hwf
  have hnotes : (_init_schema db).notes =
      some (migrateNotes (db.notes.getD ⟨notesFreshCols, []⟩)) := rfl
  intro t0 t1 h0 h1
  rw [hnotes] at h1
  cases h1
  have hg : db.notes.getD ⟨notesFreshCols, []⟩ = t0 := by rw [h0]; rfl
  rw [hg]
  exact migrateNotes_forall₂ (hn t0 h0)

set_option maxHeartbeats 2000000 in
theorem C1aux_events_rows (db : MDB) (hwf : MDBWF db) :
    ∀ t0 t1, db.events = some t0 → (_init_schema db).events = some t1 →
      List.Forall₂ eventMigrated t0.rows t1.rows := by
  obtain ⟨-, -, he, -⟩ := hwf
  have hevents : (_init_schema db).events =
      some (migrateEvents (db.events.getD ⟨eventsFreshCols, []⟩)) := rfl
  intro t0 t1 h0 h1
  rw [hevents] at h1
  cases h1
  have hg : db.events.getD ⟨eventsFreshCols, []⟩ = t0 := by rw [h0]; rfl
  rw [hg]
  exact migrateEvents_forall₂ (he t0 h0)

set_option maxHeartbeats 2000000 in
theorem C1aux_tasks_rows (db : MDB) (hwf : MDBWF db) :
    ∀ t0 t1, db.tasks = some t0 → (_init_schema db).tasks = some t1 →
      List.Forall₂ taskMigrated t0.rows t1.rows := by
  obtain ⟨-, -, -, ht⟩ := hwf
  have htasks : (_init_schema db).tasks =
      some (migrateTasks (db.tasks.getD ⟨tasksFreshCols, []⟩)) := rfl
  intro t0 t1 h0 h1
  rw [htasks] at h1
  cases h1
  have hg : db.tasks.getD ⟨tasksFreshCols, []⟩ = t0 := by rw [h0]; rfl
  rw [hg]
  exact migrateTasks_forall₂ (ht t0 h0)

/-- C1: running the Schema Manager (`_init_schema`: schema creation,
column migrations, backfill) twice in a row is idempotent — the second
run changes nothing, so it produces no errors and adds no duplicate
columns or indexes (column and index name lists stay duplicate-free) —
and one run backfills every pre-existing row: a null `updated_at`
becomes that row's `created_at`, null `tags` becomes `''`, null
`pinned`/`all_day` becomes `0`, null `status` becomes `'pending'`, null
`priority` becomes `3`, while non-null values and never-backfilled
columns of pre-existing rows are left untouched. -/
theorem C1_schema_manager (db : MDB) (hwf : MDBWF db) :
    _init_schema (_init_schema db) = _init_schema db ∧
    (∀ t, (_init_schema db).notes = some t → t.cols.Nodup) ∧
    (∀ t, (_init_schema db).events = some t → t.cols.Nodup) ∧
    (∀ t, (_init_schema db).tasks = some t → t.cols.Nodup) ∧
    (_init_schema db).indexes.Nodup ∧
    (∀ t0 t1, db.notes = some t0 → (_init_schema db).notes = some t1 →
      List.Forall₂ noteMigrated t0.rows t1.rows) ∧
    (∀ t0 t1, db.events = some t0 → (_init_schema db).events = some t1 →
      List.Forall₂ eventMigrated t0.rows t1.rows) ∧
    (∀ t0 t1, db.tasks = some t0 → (_init_schema db).tasks = some t1 →
      List.Forall₂ taskMigrated t0.rows t1.rows) :=
  ⟨init_schema_idem db, C1aux_notes_nodup db hwf, C1aux_events_nodup db hwf,
    C1aux_tasks_nodup db hwf, C1aux_indexes_nodup db hwf,
    C1aux_notes_rows db hwf, C1aux_events_rows db hwf,
    C1aux_tasks_rows db hwf⟩

/-- Witness for C1 at a concrete legacy store. -/
theorem C1_schema_manager_witness :
    MDBWF mdbWitness ∧
    _init_schema (_init_schema mdbWitness) = _init_schema mdbWitness := by
  have hwf : MDBWF mdbWitness := by
    refine ⟨by decide, ?_, ?_, ?_⟩
    · intro t ht
      exact absurd ht (by simp [mdbWitness])
    · intro t ht
      exact absurd ht (by simp [mdbWitness])
    · intro t ht
      have ht' : some legacyTasksTable = some t := ht
      cases ht'
      exact ⟨by decide, fun _ => by decide, fun hm => absurd (by decide) hm,
        fun hm => absurd (by decide) hm, fun hm => absurd (by decide) hm,
        fun hm => absurd (by decide) hm, fun _ => by decide⟩
  exact ⟨hwf, (C1_schema_manager mdbWitness hwf).1⟩

/-- C8: storage-location resolution is a total function of the input
path and the two mkdir outcomes — both exception branches are caught —
and follows the fallback chain: the in-memory marker is passed through;
otherwise the resolved absolute path when its parent can be created, the
fixed location under the user's home directory when it cannot, and the
in-memory marker when the home fallback also fails. -/
theorem C8_resolve_db_path_total_fallback (raw : Option Str) (cwd home : Str)
    (b1 b2 : Bool) :
    (configuredValue raw = S ":memory:" →
      _resolve_db_path raw cwd home b1 b2 = S ":memory:") ∧
    (configuredValue raw ≠ S ":memory:" → b1 = true →
      _resolve_db_path raw cwd home b1 b2 = resolveAbs cwd (configuredValue raw)) ∧
    (configuredValue raw ≠ S ":memory:" → b1 = false → b2 = true →
      _resolve_db_path raw cwd home b1 b2 = home ++ S "/.lifeos/lifeos.db") ∧
    (configuredValue raw ≠ S ":memory:" → b1 = false → b2 = false →
      _resolve_db_path raw cwd home b1 b2 = S ":memory:") ∧
    (_resolve_db_path raw cwd home b1 b2 = S ":memory:" ∨
      _resolve_db_path raw cwd home b1 b2 = resolveAbs cwd (configuredValue raw) ∨
      _resolve_db_path raw cwd home b1 b2 = home ++ S "/.lifeos/lifeos.db") := by
  refine ⟨?_, ?_, ?_, ?_, ?_⟩
  · intro hm
    simp [_resolve_db_path, hm]
  · intro hm hb1
    subst hb1
    simp [_resolve_db_path, hm]
  · intro hm hb1 hb2
    subst hb1
    subst hb2
    simp [_resolve_db_path, hm]
  · intro hm hb1 hb2
    subst hb1
    subst hb2
    simp [_resolve_db_path, hm]
  · by_cases hm : configuredValue raw = S ":memory:"
    · left
      simp [_resolve_db_path, hm]
    · cases b1 with
      | true =>
        right; left
        simp [_resolve_db_path, hm]
      | false =>
        cases b2 with
        | true =>
          right; right
          simp [_resolve_db_path, hm]
        | false =>
          left
          simp [_resolve_db_path, hm]

/-- Witness for C8: a configured relative path whose directory cannot be
created, with a usable home directory, resolves to the home fallback. -/
theorem C8_resolve_db_path_witness :
    configuredValue (some (S " data/lifeos.db ")) ≠ S ":memory:" ∧
    _resolve_db_path (some (S " data/lifeos.db ")) (S "/app") (S "/root")
      false true = S "/root/.lifeos/lifeos.db" := by
  refine ⟨by decide, ?_⟩
  have h := (C8_resolve_db_path_total_fallback (some (S " data/lifeos.db "))
    (S "/app") (S "/root") false true).2.2.1 (by decide) rfl rfl
  rw [h]
  decide

/-- C5: for every entity, `update` with no optional field supplied fails
with the `no fields to update` error and leaves storage untouched. -/
theorem C5_update_no_fields (now : Str) (nid tid eid : Nat)
    (ndb : NotesDB) (tdb : TasksDB) (edb : EventsDB) :
    update_note now nid none none none none ndb =
      (.error (S "no fields to update"), ndb) ∧
    update_task now tid none none none none none none tdb =
      (.error (S "no fields to update"), tdb) ∧
    update_event now eid none none none none none none edb =
      (.error (S "no fields to update"), edb) :=
  ⟨rfl, rfl, rfl⟩

theorem delete_task_no_match (task_id : Nat) (db : TasksDB) :
    (delete_task task_id db).2.rows.any (fun r => r.id = task_id) = false := by
  unfold delete_task
  by_cases h : db.rows.any (fun r => r.id = task_id) = true
  · rw [if_pos h]
    simp only [List.any_eq_false]
    intro r hr
    have := (List.mem_filter.mp hr).2
    simpa using this
  · rw [if_neg h]
    simpa using h

theorem delete_note_no_match (note_id : Nat) (db : NotesDB) :
    (delete_note note_id db).2.rows.any (fun r => r.id = note_id) = false := by
  unfold delete_note
  by_cases h : db.rows.any (fun r => r.id = note_id) = true
  · rw [if_pos h]
    simp only [List.any_eq_false]
    intro r hr
    have := (List.mem_filter.mp hr).2
    simpa using this
  · rw [if_neg h]
    simpa using h

theorem delete_event_no_match (event_id : Nat) (db : EventsDB) :
    (delete_event event_id db).2.rows.any (fun r => r.id = event_id) = false := by
  unfold delete_event
  by_cases h : db.rows.any (fun r => r.id = event_id) = true
  · rw [if_pos h]
    simp only [List.any_eq_false]
    intro r hr
    have := (List.mem_filter.mp hr).2
    simpa using this
  · rw [if_neg h]
    simpa using h

theorem delete_task_not_found {task_id : Nat} {db : TasksDB}
    (h : db.rows.any (fun r => r.id = task_id) = false) :
    delete_task task_id db = (.error (S "task not found"), db) := by
  unfold delete_task
  rw [if_neg (by simp [h])]

theorem delete_note_not_found {note_id : Nat} {db : NotesDB}
    (h : db.rows.any (fun r => r.id = note_id) = false) :
    delete_note note_id db = (.error (S "note not found"), db) := by
  unfold delete_note
  rw [if_neg (by simp [h])]

theorem delete_event_not_found {event_id : Nat} {db : EventsDB}
    (h : db.rows.any (fun r => r.id = event_id) = false) :
    delete_event event_id db = (.error (S "event not found"), db) := by
  unfold delete_event
  rw [if_neg (by simp [h])]

/-- C6: for every entity, `update` and `delete` on an id with no
matching row return the entity's not-found error and leave storage
unchanged; hence a second `delete` of the same id always returns
not-found (a delete never succeeds twice); for events the error message
is exactly `event not found`. -/
theorem C6_not_found_and_delete_once (now startv contentv descv : Str)
    (nid tid eid : Nat) (ndb : NotesDB) (tdb : TasksDB) (edb : EventsDB)
    (hn : ∀ r ∈ ndb.rows, r.id ≠ nid) (ht : ∀ r ∈ tdb.rows, r.id ≠ tid)
    (he : ∀ r ∈ edb.rows, r.id ≠ eid) :
    update_note now nid none (some contentv) none none ndb =
      (.error (S "note not found"), ndb) ∧
    delete_note nid ndb = (.error (S "note not found"), ndb) ∧
    update_task now tid none (some descv) none none none none tdb =
      (.error (S "task not found"), tdb) ∧
    delete_task tid tdb = (.error (S "task not found"), tdb) ∧
    update_event now eid none (some startv) none none none none edb =
      (.error (S "event not found"), edb) ∧
    delete_event eid edb = (.error (S "event not found"), edb) ∧
    (∀ (db2 : TasksDB) (id2 : Nat), delete_task id2 (delete_task id2 db2).2 =
      (.error (S "task not found"), (delete_task id2 db2).2)) ∧
    (∀ (db2 : NotesDB) (id2 : Nat), delete_note id2 (delete_note id2 db2).2 =
      (.error (S "note not found"), (delete_note id2 db2).2)) ∧
    (∀ (db2 : EventsDB) (id2 : Nat), delete_event id2 (delete_event id2 db2).2 =
      (.error (S "event not found"), (delete_event id2 db2).2)) := by
  have hanyn : ndb.rows.any (fun r => r.id = nid) = false := by
    simp only [List.any_eq_false]
    intro r hr
    simpa using hn r hr
  have hanyt : tdb.rows.any (fun r => r.id = tid) = false := by
    simp only [List.any_eq_false]
    intro r hr
    simpa using ht r hr
  have hanye : edb.rows.any (fun r => r.id = eid) = false := by
    simp only [List.any_eq_false]
    intro r hr
    simpa using he r hr
  refine ⟨?_, ?_, ?_, ?_, ?_, ?_, ?_, ?_, ?_⟩
  · unfold update_note
    rw [if_neg (by simp [suppliedTitleEmpty]), if_neg (by simp),
      if_neg (by simp [hanyn])]
  · exact delete_note_not_found hanyn
  · unfold update_task
    rw [if_neg (by simp [suppliedTitleEmpty]),
      if_neg (by simp [suppliedStatusBad]), if_neg (by simp),
      if_neg (by simp [hanyt])]
  · exact delete_task_not_found hanyt
  · unfold update_event
    rw [if_neg (by simp [suppliedTitleEmpty]), if_neg (by simp),
      if_neg (by simp [hanye])]
  · exact delete_event_not_found hanye
  · intro db2 id2
    exact delete_task_not_found (delete_task_no_match id2 db2)
  · intro db2 id2
    exact delete_note_not_found (delete_note_no_match id2 db2)
  · intro db2 id2
    exact delete_event_not_found (delete_event_no_match id2 db2)

/-- Witness for C6 at empty stores and id 1. -/
theorem C6_not_found_witness :
    update_event (S "2025") 1 none (some (S "2025-02-01")) none none none none
      ⟨[], 1⟩ = (.error (S "event not found"), (⟨[], 1⟩ : EventsDB)) ∧
    delete_task 1 (⟨[], 1⟩ : TasksDB) =
      (.error (S "task not found"), (⟨[], 1⟩ : TasksDB)) := by
  have h := C6_not_found_and_delete_once (S "2025") (S "2025-02-01") (S "c")
    (S "d") 1 1 1 ⟨[], 1⟩ ⟨[], 1⟩ ⟨[], 1⟩
    (by intro r hr; exact absurd hr (List.not_mem_nil r))
    (by intro r hr; exact absurd hr (List.not_mem_nil r))
    (by intro r hr; exact absurd hr (List.not_mem_nil r))
  exact ⟨h.2.2.2.2.1, h.2.2.2.1⟩

theorem find?_map_ite {l : List TaskRow} {tid : Nat} (g : TaskRow → TaskRow)
    (hg : ∀ r, (g r).id = r.id) (hex : ∃ r ∈ l, r.id = tid) :
    ∃ r ∈ l, r.id = tid ∧
      (l.map (fun x => if x.id = tid then g x else x)).find?
        (fun x => x.id = tid) = some (g r) := by
  induction l with
  | nil =>
    obtain ⟨r, hr, -⟩ := hex
    exact absurd hr (List.not_mem_nil r)
  | cons x rest ih =>
    by_cases hx : x.id = tid
    · refine ⟨x, List.mem_cons_self x rest, hx, ?_⟩
      simp only [List.map_cons, if_pos hx]
      rw [List.find?_cons_of_pos]
      simp [hg, hx]
    · obtain ⟨r, hr, hrid⟩ := hex
      rcases List.mem_cons.mp hr with h | h
      · exact absurd (h ▸ hrid) hx
      · obtain ⟨r', hr', hrid', hfind⟩ := ih ⟨r, h, hrid⟩
        refine ⟨r', List.mem_cons_of_mem x hr', hrid', ?_⟩
        simp only [List.map_cons, if_neg hx]
        rw [List.find?_cons_of_neg]
        · exact hfind
        · simp [hx]

theorem update_task_hit (now : Str) (task_id : Nat)
    (title description due_at : Option Str) (priority : Option Int)
    (tags : Option TagValue) (status : Option Str) (db : TasksDB)
    (hti : suppliedTitleEmpty title = false)
    (hsb : suppliedStatusBad status = false)
    (hnf : (title.isNone && description.isNone && due_at.isNone &&
      priority.isNone && tags.isNone && status.isNone) = false)
    (hex : ∃ r ∈ db.rows, r.id = task_id) :
    ∃ r ∈ db.rows, r.id = task_id ∧
      (update_task now task_id title description due_at priority tags status
        db).1 =
        .ok (applyTaskUpdate now title description due_at priority tags status
          r) := by
  have hany : db.rows.any (fun r => r.id = task_id) = true := by
    simp only [List.any_eq_true]
    obtain ⟨r, hr, hrid⟩ := hex
    exact ⟨r, hr, by simpa using hrid⟩
  obtain ⟨r, hr, hrid, hfind⟩ := find?_map_ite
    (applyTaskUpdate now title description due_at priority tags status)
    (fun r => rfl) hex
  refine ⟨r, hr, hrid, ?_⟩
  unfold update_task
  rw [if_neg (by simp [hti]), if_neg (by simp [hsb]), if_neg (by simp [hnf]),
    if_pos (by simp [hany])]
  simp only [hfind]

theorem containsSub_append_right {n b : Str} (a : Str)
    (h : containsSub n b = true) : containsSub n (a ++ b) = true := by
  induction a with
  | nil => simpa using h
  | cons c rest ih =>
    show (n.isPrefixOf (c :: (rest ++ b)) || containsSub n (rest ++ b)) = true
    rw [ih]
    simp

/-- C3: creating a task with a status outside the enum fails with the
invalid-status error before any write (storage unchanged, hence any
subsequent list count unchanged), the same rejection applies when a
status is supplied to update, and the error message enumerates the whole
valid set. -/
theorem C3_invalid_status_rejected (now title description : Str)
    (due_at : Option Str) (priority : Int) (tags : TagValue) (st : Str)
    (db : TasksDB) (task_id : Nat) (descU dueU : Option Str) (prU : Option Int)
    (tagsU : Option TagValue) (hbad : _normalize_status st = none) :
    (strip title ≠ [] →
      create_task now title description due_at priority tags st db =
        (.error (invalidStatusMsg st), db)) ∧
    update_task now task_id none descU dueU prU tagsU (some st) db =
      (.error (invalidStatusMsg st), db) ∧
    (∀ v ∈ _VALID_STATUSES, containsSub v (invalidStatusMsg st) = true) := by
  refine ⟨?_, ?_, ?_⟩
  · intro htitle
    unfold create_task
    rw [if_neg htitle, hbad]
  · unfold update_task
    rw [if_neg (by simp [suppliedTitleEmpty]),
      if_pos (by simp [suppliedStatusBad, hbad])]
    rfl
  · intro v hv
    have hmsg : invalidStatusMsg st =
        (S "invalid status: " ++ st ++ S ". Use ") ++ sortedStatusesRendered := by
      unfold invalidStatusMsg
      simp [List.append_assoc]
    rw [hmsg]
    apply containsSub_append_right
    fin_cases hv <;> decide

/-- Witness for C3: status "bogus" is rejected by create on an empty
store, and the message lists the full enum. -/
theorem C3_invalid_status_witness :
    _normalize_status (S "bogus") = none ∧
    create_task (S "2025") (S "Ship report") [] none 3 .null (S "bogus")
      ⟨[], 1⟩ = (.error (invalidStatusMsg (S "bogus")), (⟨[], 1⟩ : TasksDB)) ∧
    invalidStatusMsg (S "bogus") =
      S "invalid status: bogus. Use [\x27canceled\x27, \x27done\x27, \x27in_progress\x27, \x27pending\x27]" := by
  refine ⟨by decide, ?_, by decide⟩
  exact (C3_invalid_status_rejected (S "2025") (S "Ship report") [] none 3
    .null (S "bogus") ⟨[], 1⟩ 1 none none none none (by decide)).1 (by decide)

/-- C4: whenever a priority is supplied to create or update, the stored
and returned priority is the input clamped into [1, 5], with no error;
in particular clamping sends 0 to 1 and 99 to 5. -/
theorem C4_priority_clamped (now title description : Str) (due_at : Option Str)
    (priority : Int) (tags : TagValue) (st ns : Str) (db db2 : TasksDB)
    (task_id : Nat) (p2 : Int)
    (htitle : strip title ≠ []) (hst : _normalize_status st = some ns)
    (hex : ∃ r ∈ db2.rows, r.id = task_id) :
    (∃ row, (create_task now title description due_at priority tags st db).1 =
        .ok row ∧
      row.priority = clampPriority priority ∧
      (create_task now title description due_at priority tags st db).2.rows =
        db.rows ++ [row]) ∧
    (∃ row, (update_task now task_id none none none (some p2) none none
        db2).1 = .ok row ∧
      row.priority = clampPriority p2) ∧
    (1 ≤ clampPriority priority ∧ clampPriority priority ≤ 5) ∧
    clampPriority 0 = 1 ∧ clampPriority 99 = 5 := by
  refine ⟨?_, ?_, ⟨le_max_left _ _, ?_⟩, by decide, by decide⟩
  · unfold create_task
    rw [if_neg htitle, hst]
    exact ⟨_, rfl, rfl, rfl⟩
  · obtain ⟨r, hr, hrid, h1⟩ := update_task_hit now task_id none none none
      (some p2) none none db2 rfl rfl (by simp) hex
    exact ⟨_, h1, rfl⟩
  · exact max_le (by norm_num) (min_le_right priority 5)

/-- Witness for C4: creating with priority 99 on an empty store returns
priority 5. -/
theorem C4_priority_clamped_witness :
    ∃ row, (create_task (S "2025") (S "Ship report") [] (some (S "2025-01-01"))
        99 .null (S "pending") ⟨[], 1⟩).1 = .ok row ∧
      row.priority = clampPriority 99 ∧
      (create_task (S "2025") (S "Ship report") [] (some (S "2025-01-01"))
        99 .null (S "pending") ⟨[], 1⟩).2.rows = ([] : List TaskRow) ++ [row] :=
  (C4_priority_clamped (S "2025") (S "Ship report") [] (some (S "2025-01-01"))
    99 .null (S "pending") (S "pending") ⟨[], 1⟩ ⟨[⟨1, S "t", [], S "pending",
      3, none, [], S "2024", S "2024"⟩], 2⟩ 1 7 (by decide) (by decide)
    ⟨_, List.mem_cons_self _ _, rfl⟩).1

/-- C9: task status input is trimmed, lowercased and space-to-underscore
normalized before validation; inputs whose normalization lands in the
enum are accepted by both create and update and stored in canonical
form, all others are rejected. -/
theorem C9_status_normalization (s now title description : Str)
    (due_at : Option Str) (priority : Int) (tags : TagValue)
    (db db2 : TasksDB) (task_id : Nat)
    (htitle : strip title ≠ []) (hex : ∃ r ∈ db2.rows, r.id = task_id) :
    _normalize_status (S "Done") = some (S "done") ∧
    _normalize_status (S " PENDING ") = some (S "pending") ∧
    _normalize_status (S "In Progress") = some (S "in_progress") ∧
    _normalize_status s =
      (if replaceSpaces (lowerStr (strip s)) ∈ _VALID_STATUSES then
        some (replaceSpaces (lowerStr (strip s))) else none) ∧
    (∀ ns, _normalize_status s = some ns →
      ns ∈ _VALID_STATUSES ∧
      ∃ row, (create_task now title description due_at priority tags s db).1 =
        .ok row ∧ row.status = ns) ∧
    (∀ ns, _normalize_status s = some ns →
      ∃ row, (update_task now task_id none none none none none (some s)
        db2).1 = .ok row ∧ row.status = ns) ∧
    (_normalize_status s = none →
      create_task now title description due_at priority tags s db =
        (.error (invalidStatusMsg s), db)) := by
  refine ⟨by decide, by decide, by decide, rfl, ?_, ?_, ?_⟩
  · intro ns hns
    constructor
    · simp only [_normalize_status] at hns
      by_cases hmem : replaceSpaces (lowerStr (strip s)) ∈ _VALID_STATUSES
      · rw [if_pos hmem] at hns
        cases hns
        exact hmem
      · rw [if_neg hmem] at hns
        cases hns
    · unfold create_task
      rw [if_neg htitle, hns]
      exact ⟨_, rfl, rfl⟩
  · intro ns hns
    have hsb : suppliedStatusBad (some s) = false := by
      simp [suppliedStatusBad, hns]
    obtain ⟨r, hr, hrid, h1⟩ := update_task_hit now task_id none none none
      none none (some s) db2 rfl hsb (by simp) hex
    refine ⟨_, h1, ?_⟩
    show (_normalize_status s).getD r.status = ns
    rw [hns]
    rfl
  · intro hns
    unfold create_task
    rw [if_neg htitle, hns]

/-- Witness for C9: create accepts the input "In Progress" and stores
"in_progress"; update accepts " PENDING " on an existing task and stores
"pending". -/
theorem C9_status_normalization_witness :
    (∃ row, (create_task (S "2025") (S "t") [] none 3 .null (S "In Progress")
      ⟨[], 1⟩).1 = .ok row ∧ row.status = S "in_progress") ∧
    (∃ row, (update_task (S "2025") 1 none none none none none
        (some (S " PENDING "))
        ⟨[⟨1, S "t", [], S "done", 3, none, [], S "2024", S "2024"⟩], 2⟩).1 =
      .ok row ∧ row.status = S "pending") :=
  ⟨((C9_status_normalization (S "In Progress") (S "2025") (S "t") [] none 3
      .null ⟨[], 1⟩ ⟨[⟨1, S "t", [], S "done", 3, none, [], S "2024",
        S "2024"⟩], 2⟩ 1 (by decide)
      ⟨_, List.mem_cons_self _ _, rfl⟩).2.2.2.2.1 (S "in_progress")
      (by decide)).2,
    (C9_status_normalization (S " PENDING ") (S "2025") (S "t") [] none 3
      .null ⟨[], 1⟩ ⟨[⟨1, S "t", [], S "done", 3, none, [], S "2024",
        S "2024"⟩], 2⟩ 1 (by decide)
      ⟨_, List.mem_cons_self _ _, rfl⟩).2.2.2.2.2.1 (S "pending")
      (by decide)⟩

/-- C10 (counterexample): updating a task with due_at " 2025-01-02 "
stores the stripped value "2025-01-02", not the verbatim input, so
"stored verbatim" fails for update. -/
theorem C10_due_at_counterexample :
    ((update_task (S "2026") 1 none none (some (S " 2025-01-02 ")) none none
      none c10db).2.rows.map (fun r => r.due_at)) = [some (S "2025-01-02")] ∧
    (some (S "2025-01-02") : Option Str) ≠ some (S " 2025-01-02 ") :=
  ⟨by decide, by decide⟩

/-- C10 (amended): an empty or whitespace-only due_at is stored as NULL
by both create and update; a due_at with non-whitespace content is
stored verbatim by create but stored stripped of surrounding whitespace
by update. -/
theorem C10_due_at_normalized (now title description due : Str)
    (priority : Int) (tags : TagValue) (st ns : Str) (db db2 : TasksDB)
    (task_id : Nat)
    (htitle : strip title ≠ []) (hst : _normalize_status st = some ns)
    (hex : ∃ r ∈ db2.rows, r.id = task_id) :
    (∃ row, (create_task now title description (some due) priority tags st
        db).1 = .ok row ∧
      row.due_at = (if strip due = [] then none else some due)) ∧
    (∃ row, (create_task now title description none priority tags st db).1 =
        .ok row ∧ row.due_at = none) ∧
    (∃ row, (update_task now task_id none none (some due) none none none
        db2).1 = .ok row ∧
      row.due_at = (if strip due = [] then none else some (strip due))) := by
  refine ⟨?_, ?_, ?_⟩
  · unfold create_task
    rw [if_neg htitle, hst]
    exact ⟨_, rfl, rfl⟩
  · unfold create_task
    rw [if_neg htitle, hst]
    exact ⟨_, rfl, rfl⟩
  · obtain ⟨r, hr, hrid, h1⟩ := update_task_hit now task_id none none
      (some due) none none none db2 rfl rfl (by simp) hex
    exact ⟨_, h1, rfl⟩

/-- Witness for C10 (amended) at a whitespace-only due date. -/
theorem C10_due_at_normalized_witness :
    ∃ row, (create_task (S "2025") (S "t") [] (some (S "  ")) 3 .null
      (S "pending") ⟨[], 1⟩).1 = .ok row ∧
      row.due_at = (if strip (S "  ") = [] then none else some (S "  ")) :=
  (C10_due_at_normalized (S "2025") (S "t") [] (S "  ") 3 .null (S "pending")
    (S "pending") ⟨[], 1⟩ c10db 1 (by decide) (by decide)
    ⟨_, List.mem_cons_self _ _, rfl⟩).1

theorem search_take_props {α : Type} (r : α → α → Prop) [DecidableRel r]
    [IsTotal α r] [IsTrans α r] (rows : List α) (p : α → Bool) (k : Nat) :
    List.Sorted r ((List.insertionSort r (rows.filter p)).take k) ∧
    (∀ x ∈ (List.insertionSort r (rows.filter p)).take k,
      x ∈ rows ∧ p x = true) ∧
    ((rows.filter p).length ≤ k →
      ((List.insertionSort r (rows.filter p)).take k).Perm (rows.filter p)) := by
  refine ⟨?_, ?_, ?_⟩
  · exact List.Pairwise.sublist (List.take_sublist _ _)
      (List.sorted_insertionSort r _)
  · intro x hx
    have hx1 : x ∈ List.insertionSort r (rows.filter p) :=
      (List.take_sublist _ _).subset hx
    have hx2 : x ∈ rows.filter p := (List.perm_insertionSort r _).subset hx1
    exact ⟨(List.mem_filter.mp hx2).1, (List.mem_filter.mp hx2).2⟩
  · intro hlen
    have hlen2 : (List.insertionSort r (rows.filter p)).length ≤ k := by
      rw [(List.perm_insertionSort r _).length_eq]
      exact hlen
    rw [List.take_of_length_le hlen2]
    exact List.perm_insertionSort r _

/-- C7 (counterexample): `search_notes` does not return its matches in
the notes default list ordering — `list_notes` puts the pinned note
first, `search_notes` orders by updated_at descending only. -/
theorem C7_search_order_counterexample :
    search_notes (S "x") 20 true c7db = .ok [noteB, noteA] ∧
    list_notes 50 0 none false c7db = [noteA, noteB] ∧
    ([noteB, noteA] : List Note) ≠ [noteA, noteB] :=
  ⟨by decide, by decide, by decide⟩

/-- C7 (amended): search returns exactly the matching records, ordered
by updated_at descending for notes and tasks (not the default list
ordering), and by start ascending for events (which coincides with the
events list ordering); when the clamped limit covers all matches the
result is a permutation of the full match set. -/
theorem C7_search_order_amended (dbN : NotesDB) (dbT : TasksDB)
    (dbE : EventsDB) (qn qt qe : Str) (ln lt le_ : Int) (ic : Bool)
    (hqn : strip qn ≠ []) (hqt : strip qt ≠ []) (hqe : strip qe ≠ []) :
    (∃ l, search_notes qn ln ic dbN = .ok l ∧ List.Sorted updatedDescN l ∧
      (∀ n ∈ l, n ∈ dbN.rows ∧ noteMatches qn ic n = true) ∧
      ((dbN.rows.filter (noteMatches qn ic)).length ≤ clampLimit ln 100 →
        l.Perm (dbN.rows.filter (noteMatches qn ic)))) ∧
    (∃ l, search_tasks qt lt dbT = .ok l ∧ List.Sorted updatedDescT l ∧
      (∀ t ∈ l, t ∈ dbT.rows ∧ taskMatches qt t = true) ∧
      ((dbT.rows.filter (taskMatches qt)).length ≤ clampLimit lt 200 →
        l.Perm (dbT.rows.filter (taskMatches qt)))) ∧
    (∃ l, search_events qe le_ dbE = .ok l ∧ List.Sorted startAscE l ∧
      (∀ e ∈ l, e ∈ dbE.rows ∧ eventMatches qe e = true) ∧
      ((dbE.rows.filter (eventMatches qe)).length ≤ clampLimit le_ 200 →
        l.Perm (dbE.rows.filter (eventMatches qe)))) := by
  refine ⟨?_, ?_, ?_⟩
  · exact ⟨(List.insertionSort updatedDescN
        (dbN.rows.filter (noteMatches qn ic))).take (clampLimit ln 100),
      by unfold search_notes; rw [if_neg hqn],
      (search_take_props updatedDescN dbN.rows (noteMatches qn ic)
        (clampLimit ln 100)).1,
      (search_take_props updatedDescN dbN.rows (noteMatches qn ic)
        (clampLimit ln 100)).2.1,
      (search_take_props updatedDescN dbN.rows (noteMatches qn ic)
        (clampLimit ln 100)).2.2⟩
  · exact ⟨(List.insertionSort updatedDescT
        (dbT.rows.filter (taskMatches qt))).take (clampLimit lt 200),
      by unfold search_tasks; rw [if_neg hqt],
      (search_take_props updatedDescT dbT.rows (taskMatches qt)
        (clampLimit lt 200)).1,
      (search_take_props updatedDescT dbT.rows (taskMatches qt)
        (clampLimit lt 200)).2.1,
      (search_take_props updatedDescT dbT.rows (taskMatches qt)
        (clampLimit lt 200)).2.2⟩
  · exact ⟨(List.insertionSort startAscE
        (dbE.rows.filter (eventMatches qe))).take (clampLimit le_ 200),
      by unfold search_events; rw [if_neg hqe],
      (search_take_props startAscE dbE.rows (eventMatches qe)
        (clampLimit le_ 200)).1,
      (search_take_props startAscE dbE.rows (eventMatches qe)
        (clampLimit le_ 200)).2.1,
      (search_take_props startAscE dbE.rows (eventMatches qe)
        (clampLimit le_ 200)).2.2⟩

/-- Witness for C7 (amended) at the two-note store. -/
theorem C7_search_order_amended_witness :
    ∃ l, search_notes (S "x") 20 true c7db = .ok l ∧
      List.Sorted updatedDescN l ∧
      (∀ n ∈ l, n ∈ c7db.rows ∧ noteMatches (S "x") true n = true) ∧
      ((c7db.rows.filter (noteMatches (S "x") true)).length ≤
          clampLimit 20 100 →
        l.Perm (c7db.rows.filter (noteMatches (S "x") true))) :=
  (C7_search_order_amended c7db ⟨[], 1⟩ ⟨[], 1⟩ (S "x") (S "x") (S "x")
    20 20 20 true (by decide) (by decide) (by decide)).1
